import Mathlib

/-! # Verification development for `main.go` (goroutine coordination examples)

`main.go` is a sequence of independent example programs: a producer and a
consumer on an unbuffered channel, a worker pool joined by a `sync.WaitGroup`,
a task stopped through a channel, tasks stopped through a `context`, tasks
under a `context` with a timeout, and a `context` carrying a value.

Each example is embedded as an explicit state machine.  The state holds where
each goroutine stands and the state of the synchronisation objects they share;
a step is one atomic action of one goroutine, and a schedule (a list of moves)
says who moves when, so a statement about every schedule is a statement about
every interleaving.  The operations of the Go runtime and standard library the
examples call (unbuffered channels, `select`, `sync.WaitGroup`, `context`) are
embedded by their documented behaviour.  What a task prints and does is kept
as a trace of events.

Where an example depends on time (`time.Sleep`, `time.After`, the deadline of
`context.WithTimeout`), time is counted in whole seconds from the start of the
program, a sleep or timer of `d` seconds ends exactly `d` seconds after it
starts, and everything else takes no time.  When two things become ready at
the same instant, which comes first is a parameter of the run (`tie`, `ties`),
and the statements hold for every value of it.
-/

namespace GoGoroutine

/-! ## Example 1: producer / consumer over an unbuffered channel (lines 10-32) -/

/-- Where the anonymous producer goroutine (lines 14-22) stands. -/
inductive ProducerPc
  /-- Blocked at `ch <- i` (line 18): the loop condition `i >= 0` held. -/
  | atSend
  /-- In `time.Sleep(time.Second)` (line 20), after a completed send. -/
  | sleeping
  /-- The loop condition `i >= 0` failed; the goroutine has ended. -/
  | finished
  deriving DecidableEq, Repr

/-- Where the consumer (the `range ch` loop of `main`, lines 24-31) stands. -/
inductive ConsumerPc
  /-- Blocked at the receive of `for data := range ch`. -/
  | atRecv
  /-- Left the loop through `break` (line 29), after `data == 0`. -/
  | exitedBreak
  /-- Left the loop because the channel was closed. -/
  | exitedClosed
  deriving DecidableEq, Repr

/-- State of the producer/consumer program. -/
structure PCState where
  /-- The producer's loop variable `i`. -/
  i : Int
  producer : ProducerPc
  consumer : ConsumerPc
  /-- Whether `ch` has been closed. -/
  closed : Bool
  /-- The values printed by `fmt.Println(data)`, oldest first. -/
  printed : List Int
  /-- Number of completed sends `ch <- i`. -/
  sends : Nat
  /-- Number of completed receives of the `range` loop. -/
  receives : Nat
  deriving DecidableEq, Repr

/-- The loop head of `for i := 3; i >= 0; i--`: test `i >= 0`. -/
def producerLoopHead (i : Int) : ProducerPc :=
  if i ≥ 0 then ProducerPc.atSend else ProducerPc.finished

/-- State right after `go func() {...}()`: `ch` is fresh and open, the
producer has run `i := 3` and its first loop test, `main` is at `range ch`. -/
def pcInit : PCState :=
  { i := 3, producer := producerLoopHead 3, consumer := ConsumerPc.atRecv,
    closed := false, printed := [], sends := 0, receives := 0 }

/-- One step of the program; `none` when no goroutine can move.

* `main` has left the loop: `main` returns and the program ends.
* producer at `ch <- i`, consumer at the receive: the unbuffered channel hands
  `i` over (one send, one receive); the consumer prints `data` and tests
  `data == 0`; the producer goes to sleep.
* producer sleeping: the sleep ends, `i--` runs, then the loop test.
* producer ended: the consumer can only leave through a closed channel. -/
def pcStep (s : PCState) : Option PCState :=
  match s.consumer with
  | ConsumerPc.exitedBreak => none
  | ConsumerPc.exitedClosed => none
  | ConsumerPc.atRecv =>
    match s.producer with
    | ProducerPc.atSend =>
      some { s with
        producer := ProducerPc.sleeping
        consumer := if s.i = 0 then ConsumerPc.exitedBreak else ConsumerPc.atRecv
        printed := s.printed ++ [s.i]
        sends := s.sends + 1
        receives := s.receives + 1 }
    | ProducerPc.sleeping =>
      some { s with i := s.i - 1, producer := producerLoopHead (s.i - 1) }
    | ProducerPc.finished =>
      if s.closed then some { s with consumer := ConsumerPc.exitedClosed } else none

/-- Run at most `n` steps, stopping early when no step is possible. -/
def pcExec : Nat → PCState → PCState
  | 0, s => s
  | n + 1, s =>
    match pcStep s with
    | none => s
    | some s' => pcExec n s'

/-- The state in which the producer/consumer program ends. -/
def pcFinal : PCState :=
  { i := 0, producer := ProducerPc.sleeping, consumer := ConsumerPc.exitedBreak,
    closed := false, printed := [3, 2, 1, 0], sends := 4, receives := 4 }

/-! ## `sync.WaitGroup` and the coordinators that use one (lines 36-54, 143-153) -/

/-- The panic of `sync.WaitGroup`: "sync: negative WaitGroup counter". -/
inductive WgPanic
  | negativeCounter
  deriving DecidableEq, Repr

deriving instance DecidableEq for Except

/-- A `sync.WaitGroup`: its counter of outstanding tasks. -/
structure WaitGroup where
  counter : Int
  deriving DecidableEq, Repr

/-- `wg.Add(delta)`: adds `delta` to the counter; panics when the counter
becomes negative. -/
def WaitGroup.Add (wg : WaitGroup) (delta : Int) : Except WgPanic WaitGroup :=
  if wg.counter + delta < 0 then Except.error WgPanic.negativeCounter
  else Except.ok { counter := wg.counter + delta }

/-- `wg.Done()` decrements the counter by one: it is `wg.Add(-1)`. -/
def WaitGroup.Done (wg : WaitGroup) : Except WgPanic WaitGroup :=
  wg.Add (-1)

/-- Whether `wg.Wait()` returns: it blocks until the counter is zero. -/
def WaitGroup.waitReturns (wg : WaitGroup) : Bool :=
  wg.counter == 0

/-- `var wg sync.WaitGroup` (line 36) and `&sync.WaitGroup{}` (line 144): the
zero value, counter `0`. -/
def WaitGroup.zero : WaitGroup := { counter := 0 }

/-- Apply `n` calls of `wg.Add(1)` in sequence. -/
def WaitGroup.addOnes : Nat → WaitGroup → Except WgPanic WaitGroup
  | 0, wg => Except.ok wg
  | n + 1, wg =>
    match wg.Add 1 with
    | Except.ok wg' => WaitGroup.addOnes n wg'
    | Except.error e => Except.error e

/-- Apply `n` calls of `wg.Done()` in sequence. -/
def WaitGroup.arrivals : Nat → WaitGroup → Except WgPanic WaitGroup
  | 0, wg => Except.ok wg
  | n + 1, wg =>
    match wg.Done with
    | Except.ok wg' => WaitGroup.arrivals n wg'
    | Except.error e => Except.error e

/-- An action of a coordinator (`main`), in program order. -/
inductive CoordAct
  /-- `wg.Add(delta)`. -/
  | add (delta : Int)
  /-- `go run(...)` for the task with loop index `id`. -/
  | spawn (id : Nat)
  /-- `wg.Wait()`. -/
  | wait
  /-- `fmt.Println(...)`. -/
  | println
  /-- `cancel()` (deferred in the timeout example). -/
  | cancel
  deriving DecidableEq, Repr

/-- The worker-pool `main` (lines 44-54): the loop `for i := 0; i <
countThread; i++ { go run(i) }`, then `wg.Add(countThread)`, `wg.Wait()` and
the final `fmt.Println`. -/
def poolMain (countThread : Nat) : List CoordAct :=
  (List.range countThread).map CoordAct.spawn ++
    [CoordAct.add countThread, CoordAct.wait, CoordAct.println]

/-- The timeout `main` (lines 143-153): the loop `for i := 0; i < 3; i++ {
wg.Add(1); go run(ctx, 1*time.Second, i, wg) }`, then `wg.Wait()`, then the
deferred `cancel()`. -/
def timeoutMain : List CoordAct :=
  ((List.range 3).map fun i => [CoordAct.add 1, CoordAct.spawn i]).flatten ++
    [CoordAct.wait, CoordAct.cancel]

/-- Registration precedes spawning: scanning the actions with `budget` =
registered count minus spawned count, the budget never drops below zero. -/
def registerBeforeSpawnFrom (budget : Int) : List CoordAct → Bool
  | [] => true
  | CoordAct.add d :: rest =>
    decide (0 ≤ budget + d) && registerBeforeSpawnFrom (budget + d) rest
  | CoordAct.spawn _ :: rest =>
    decide (0 ≤ budget - 1) && registerBeforeSpawnFrom (budget - 1) rest
  | _ :: rest => registerBeforeSpawnFrom budget rest

/-- Every task is registered on the wait group before it is spawned. -/
def registerBeforeSpawn (acts : List CoordAct) : Bool :=
  registerBeforeSpawnFrom 0 acts

/-- Who moves next: the coordinator, or the spawned task `id` reaching its
`wg.Done()` (line 41, line 135), which it does once, at some point after it
was spawned. -/
inductive Actor
  | coord
  | task (id : Nat)
  deriving DecidableEq, Repr

/-- State of a coordinator and its tasks around one wait group. -/
structure JoinState where
  /-- The coordinator's remaining actions. -/
  acts : List CoordAct
  wg : WaitGroup
  /-- Spawned tasks that have not called `wg.Done()` yet. -/
  live : List Nat
  /-- Tasks that have called `wg.Done()`, latest first. -/
  arrived : List Nat
  /-- Set once a `WaitGroup` operation has panicked: the program has crashed. -/
  panicked : Option WgPanic
  deriving DecidableEq, Repr

/-- The state in which `main` starts. -/
def joinInit (acts : List CoordAct) : JoinState :=
  { acts := acts, wg := WaitGroup.zero, live := [], arrived := [], panicked := none }

/-- One move of `who`.  A move that is not enabled leaves the state as it is:
nothing moves after a panic or after `main` has returned (the program has
ended), `wg.Wait()` moves only when it returns, and a task that is not live
does nothing. -/
def joinStep (s : JoinState) (who : Actor) : JoinState :=
  match s.panicked, s.acts with
  | some _, _ => s
  | none, [] => s
  | none, act :: rest =>
    match who with
    | Actor.coord =>
      match act with
      | CoordAct.add d =>
        match s.wg.Add d with
        | Except.ok wg' => { s with acts := rest, wg := wg' }
        | Except.error e => { s with panicked := some e }
      | CoordAct.spawn id => { s with acts := rest, live := id :: s.live }
      | CoordAct.wait => if s.wg.waitReturns then { s with acts := rest } else s
      | CoordAct.println => { s with acts := rest }
      | CoordAct.cancel => { s with acts := rest }
    | Actor.task id =>
      if id ∈ s.live then
        match s.wg.Done with
        | Except.ok wg' =>
          { s with wg := wg', live := s.live.erase id, arrived := id :: s.arrived }
        | Except.error e => { s with panicked := some e }
      else s

/-- Run a schedule: the moves in order. -/
def joinRun (sched : List Actor) (s : JoinState) : JoinState :=
  sched.foldl joinStep s

/-- Sum of the deltas of the `wg.Add` calls among the actions. -/
def addsIn : List CoordAct → Int
  | [] => 0
  | CoordAct.add d :: rest => d + addsIn rest
  | _ :: rest => addsIn rest

/-- Number of `go run(...)` statements among the actions. -/
def spawnsIn : List CoordAct → Nat
  | [] => 0
  | CoordAct.spawn _ :: rest => 1 + spawnsIn rest
  | _ :: rest => spawnsIn rest

/-- The invariant of a coordinator with program `acts0` that registers before
it spawns: no panic so far; every live task is counted; the rest of the
program keeps registering before spawning from the current surplus; the rest
of the program is a suffix of `acts0`; the counter is the number of live tasks
plus the surplus of registrations; every spawned task is live or has arrived. -/
def JoinInv (acts0 : List CoordAct) (s : JoinState) : Prop :=
  s.panicked = none ∧ (s.live.length : Int) ≤ s.wg.counter ∧
    registerBeforeSpawnFrom (s.wg.counter - s.live.length) s.acts = true ∧
    s.acts <:+ acts0 ∧
    s.wg.counter + addsIn s.acts + spawnsIn acts0 =
      s.live.length + spawnsIn s.acts + addsIn acts0 ∧
    s.live.length + s.arrived.length + spawnsIn s.acts = spawnsIn acts0

/-- The coordinator is past its join: only `fmt.Println` and `cancel()` are
left of its program. -/
def pastJoin (acts : List CoordAct) : Bool :=
  acts.all fun a => decide (a = CoordAct.println ∨ a = CoordAct.cancel)

/-- The last action of the program that is not a `fmt.Println` or a `cancel()`
is its `wg.Wait()`. -/
def waitsLast : List CoordAct → Bool
  | [] => true
  | act :: rest =>
    (if pastJoin rest && !pastJoin [act] then decide (act = CoordAct.wait) else true) &&
      waitsLast rest

/-- The invariant of a coordinator that waits last: once it is past its join,
the counter is zero. -/
def JoinedInv (s : JoinState) : Prop :=
  waitsLast s.acts = true ∧ (pastJoin s.acts = true → s.wg.counter = 0)

/-! ## `context`: cancellation and values (lines 90-119, 143-188) -/

/-- A `context.Context` as the examples build them: the chain of derivations
from the context up to the root.  Keys and values are strings, as in the value
example. -/
inductive Ctx
  /-- `context.Background()`: the empty root; never done, no deadline, no
  values. -/
  | background
  /-- `context.WithCancel(parent)`; `id` names the new node's own cancel
  function. -/
  | withCancel (id : Nat) (parent : Ctx)
  /-- `context.WithTimeout(parent, d)` called at time `t`, with `deadline =
  t + d`; `id` names the new node's own cancel function. -/
  | withTimeout (id : Nat) (deadline : Nat) (parent : Ctx)
  /-- `context.WithValue(parent, key, val)`. -/
  | withValue (parent : Ctx) (key : String) (val : String)
  deriving DecidableEq, Repr

/-- What the contexts of a program share: which cancel functions have been
called, and the time (in seconds since the program started). -/
structure CtxState where
  cancelled : List Nat
  now : Nat
  deriving DecidableEq, Repr

/-- Nothing cancelled, time zero. -/
def CtxState.init : CtxState := { cancelled := [], now := 0 }

/-- Whether `ctx.Done()` is closed (a receive from it is ready): the node's own
cancel function was called, or its deadline has passed, or its parent is done.
A value context has its parent's `Done()`. -/
def Ctx.isDone : Ctx → CtxState → Bool
  | Ctx.background, _ => false
  | Ctx.withCancel id p, st => decide (id ∈ st.cancelled) || p.isDone st
  | Ctx.withTimeout id dl p, st =>
    decide (id ∈ st.cancelled) || decide (dl ≤ st.now) || p.isDone st
  | Ctx.withValue p _ _, st => p.isDone st

/-- `ctx.Value(key)`: a value context answers for its own key and asks its
parent for any other; the other contexts ask their parent; the root has no
value (`nil`, here `none`). -/
def Ctx.Value : Ctx → String → Option String
  | Ctx.background, _ => none
  | Ctx.withCancel _ p, k => p.Value k
  | Ctx.withTimeout _ _ p, k => p.Value k
  | Ctx.withValue p key val, k => if key = k then some val else p.Value k

/-- `Ctx.isWithin p c`: whether `c` is `p` or a descendant of `p`. -/
def Ctx.isWithin (p : Ctx) : Ctx → Bool
  | Ctx.background => decide (p = Ctx.background)
  | Ctx.withCancel id c => decide (p = Ctx.withCancel id c) || Ctx.isWithin p c
  | Ctx.withTimeout id dl c => decide (p = Ctx.withTimeout id dl c) || Ctx.isWithin p c
  | Ctx.withValue c k v => decide (p = Ctx.withValue c k v) || Ctx.isWithin p c

/-- The cancel functions on the chain from a context to the root. -/
def Ctx.cancelIds : Ctx → List Nat
  | Ctx.background => []
  | Ctx.withCancel id p => id :: p.cancelIds
  | Ctx.withTimeout id _ p => id :: p.cancelIds
  | Ctx.withValue p _ _ => p.cancelIds

/-- What can happen to the shared context state. -/
inductive CtxOp
  /-- The cancel function `id` is called. -/
  | cancel (id : Nat)
  /-- Time passes. -/
  | advance (seconds : Nat)
  deriving DecidableEq, Repr

/-- Effect of one operation. -/
def CtxState.apply (st : CtxState) : CtxOp → CtxState
  | CtxOp.cancel id => { st with cancelled := id :: st.cancelled }
  | CtxOp.advance dt => { st with now := st.now + dt }

/-- Effect of a sequence of operations. -/
def CtxState.applyAll (st : CtxState) (ops : List CtxOp) : CtxState :=
  ops.foldl CtxState.apply st

/-- A line a task prints, a sleep, or its report to the wait group. -/
inductive Event (α : Type)
  /-- The "start" line of the worker-pool task (line 39). -/
  | start (who : α)
  /-- The "running" / "in progress" line of a task. -/
  | running (who : α)
  /-- The "exit" / "end" line of a task. -/
  | exit (who : α)
  /-- `time.Sleep` of so many seconds. -/
  | sleep (seconds : Nat)
  /-- `wg.Done()`. -/
  | wgDone
  deriving DecidableEq, Repr

/-- A task running one of the loops: whether it has returned, and what it has
done so far. -/
structure Task (α : Type) where
  returned : Bool
  trace : List (Event α)
  deriving DecidableEq, Repr

/-- A task that has just been spawned. -/
def Task.fresh {α : Type} : Task α :=
  { returned := false, trace := [] }

/-- One iteration of the loop of `run(ctx, id)` (lines 91-100) and of
`run(ctx)` (lines 160-169), in shared state `st`, where `v` is the argument
its `fmt.Printf` prints: `select` takes the `<-ctx.Done()` case when it is
ready (print the exit line, return) and the `default` case otherwise (print
the running line, sleep two seconds).  A task that has returned does nothing. -/
def Task.pollCtx {α : Type} (ctx : Ctx) (st : CtxState) (v : α) (t : Task α) : Task α :=
  if t.returned then t
  else if ctx.isDone st then
    { returned := true, trace := t.trace ++ [Event.exit v] }
  else
    { returned := false, trace := t.trace ++ [Event.running v, Event.sleep 2] }

/-- `var key string = "name"` (line 157). -/
def key : String := "name"

/-- One iteration of `run(ctx)` of the value example (lines 159-170): both
lines print `ctx.Value(key)`. -/
def Task.pollValue (ctx : Ctx) (st : CtxState) (t : Task (Option String)) :
    Task (Option String) :=
  t.pollCtx ctx st (ctx.Value key)

/-- `ctx` of the value example (line 174):
`context.WithCancel(context.Background())`. -/
def valueExampleCtx : Ctx := Ctx.withCancel 0 Ctx.background

/-- `valuectx` of the value example (line 176). -/
def valuectx : Ctx := Ctx.withValue valueExampleCtx key "【监控1】"

/-- The task `go run(valuectx)` (line 179) after polling in each of the given
shared states in turn. -/
def runValueTask (sts : List CtxState) : Task (Option String) :=
  sts.foldl (fun t st => t.pollValue valuectx st) Task.fresh

/-- `ctx` of the cancel example (line 104). -/
def cancelExampleCtx : Ctx := Ctx.withCancel 0 Ctx.background

/-- The cancel example (lines 102-119) with any number of tasks: the shared
context state and, for each `go run(ctx, id)`, the `id` and the task. -/
structure CancelSys where
  st : CtxState
  tasks : List (Int × Task Int)
  deriving DecidableEq, Repr

/-- A move of the cancel example. -/
inductive CancelMove
  /-- `main` calls `cancel()` (line 114). -/
  | cancel
  /-- The `i`-th spawned task runs one iteration of its loop. -/
  | poll (i : Nat)
  deriving DecidableEq, Repr

/-- The tasks `go run(ctx, id)` for the given ids, just spawned. -/
def CancelSys.spawned (ids : List Int) : CancelSys :=
  { st := CtxState.init, tasks := ids.map fun id => (id, Task.fresh) }

/-- The cancel example after `go run(ctx, 1)` and `go run(ctx, 2)` (lines
107-108). -/
def cancelExample : CancelSys := CancelSys.spawned [1, 2]

/-- One move of the cancel example. -/
def CancelSys.step (s : CancelSys) : CancelMove → CancelSys
  | CancelMove.cancel => { s with st := s.st.apply (CtxOp.cancel 0) }
  | CancelMove.poll i =>
    match s.tasks[i]? with
    | none => s
    | some (id, t) => { s with tasks := s.tasks.set i (id, t.pollCtx cancelExampleCtx s.st id) }

/-- Run a sequence of moves. -/
def CancelSys.run (moves : List CancelMove) (s : CancelSys) : CancelSys :=
  moves.foldl CancelSys.step s

/-! ## The stop channel (lines 59-81) -/

/-- Where `main` of the stop-channel example stands with respect to its one
send. -/
inductive SenderPc
  /-- Before `stop <- true` (in the five-second sleep). -/
  | beforeSend
  /-- Blocked at `stop <- true` (line 78): no receiver has taken the value. -/
  | atSend
  /-- The send has completed. -/
  | afterSend
  deriving DecidableEq, Repr

/-- The stop-channel example with any number of tasks `go run(stop)` on the
same unbuffered channel. -/
structure StopSys where
  main : SenderPc
  tasks : List (Task Unit)
  deriving DecidableEq, Repr

/-- A move of the stop-channel example. -/
inductive StopMove
  /-- `main` reaches `stop <- true`. -/
  | offer
  /-- The `i`-th task runs one iteration of its loop. -/
  | poll (i : Nat)
  deriving DecidableEq, Repr

/-- `n` tasks just spawned, `main` before its send. -/
def StopSys.spawned (n : Nat) : StopSys :=
  { main := SenderPc.beforeSend, tasks := List.replicate n Task.fresh }

/-- One move of the stop-channel example; `u` is the length of the sleep of the
`default` case (two seconds in the source).  An iteration of `run(stop)`
(lines 60-69): `select` takes `case <-stop` when a sender is blocked on the
unbuffered channel, which completes that send (print the end line, return),
and the `default` case otherwise (print the in-progress line, sleep). -/
def StopSys.step (u : Nat) (s : StopSys) : StopMove → StopSys
  | StopMove.offer =>
    match s.main with
    | SenderPc.beforeSend => { s with main := SenderPc.atSend }
    | _ => s
  | StopMove.poll i =>
    match s.tasks[i]? with
    | none => s
    | some t =>
      if t.returned then s
      else
        match s.main with
        | SenderPc.atSend =>
          { main := SenderPc.afterSend,
            tasks := s.tasks.set i { returned := true, trace := t.trace ++ [Event.exit ()] } }
        | _ =>
          { main := s.main,
            tasks := s.tasks.set i
              { returned := false, trace := t.trace ++ [Event.running (), Event.sleep u] } }

/-- Run a sequence of moves. -/
def StopSys.run (u : Nat) (moves : List StopMove) (s : StopSys) : StopSys :=
  moves.foldl (StopSys.step u) s

/-- Number of tasks that have returned. -/
def StopSys.returnedCount (s : StopSys) : Nat :=
  s.tasks.countP fun t => t.returned

/-- Number of tasks still in their loop. -/
def StopSys.runningCount (s : StopSys) : Nat :=
  s.tasks.countP fun t => !t.returned

/-- The stop-channel example in time, with one task.  The task polls at
`now`, then every `u` seconds; `main` reaches its send at time `t` (five
seconds in the source).  At a poll, the sender is already blocked on the
channel when `t < now`; when `t = now` the two goroutines wake at the same
instant and `tie` says whether the sender gets to the channel first.  Gives
the time at which the task returns and the final state, or `none` when the
fuel runs out first. -/
def stopTimedRun (u t : Nat) (tie : Bool) : Nat → Nat → StopSys → Option (Nat × StopSys)
  | 0, _, _ => none
  | fuel + 1, now, s =>
    let s1 := if t < now ∨ (t = now ∧ tie = true) then StopSys.step u s StopMove.offer else s
    let s2 := StopSys.step u s1 (StopMove.poll 0)
    match s2.tasks with
    | [] => none
    | task :: _ => if task.returned then some (now, s2) else stopTimedRun u t tie fuel (now + u) s2

/-! ## The timeout example in time (lines 130-153) and the worker-pool task (lines 38-42) -/

/-- The earliest time, from `st.now` on, at which `ctx.Done()` is ready when no
cancel function is called from now on; `none` when it never is. -/
def Ctx.doneAt? : Ctx → CtxState → Option Nat
  | Ctx.background, _ => none
  | Ctx.withCancel id p, st => if id ∈ st.cancelled then some st.now else p.doneAt? st
  | Ctx.withTimeout id dl p, st =>
    if id ∈ st.cancelled then some st.now
    else
      match p.doneAt? st with
      | none => some (max st.now dl)
      | some d => some (min d (max st.now dl))
  | Ctx.withValue p _ _, st => p.doneAt? st

/-- The two cases of the `select` of `run(ctx, duration, id, wg)`. -/
inductive Branch
  /-- `case <-ctx.Done()`. -/
  | done
  /-- `case <-time.After(duration)`. -/
  | tick
  deriving DecidableEq, Repr

/-- The `select` of lines 132-139 entered at time `st.now`: the case that
becomes ready first is taken, at the time it becomes ready; `time.After`
fires `duration` after the `select` is entered.  When both become ready at
the same instant either may be taken: `tie` says whether the tick is. -/
def selectDoneOrAfter (ctx : Ctx) (st : CtxState) (duration : Nat) (tie : Bool) :
    Branch × Nat :=
  match ctx.doneAt? st with
  | none => (Branch.tick, st.now + duration)
  | some d =>
    if d < st.now + duration then (Branch.done, d)
    else if st.now + duration < d then (Branch.tick, st.now + duration)
    else (if tie then Branch.tick else Branch.done, d)

/-- `run(ctx, duration, id, wg)` (lines 130-141) from time `st.now`: the loop
around the `select`; `ties iter` resolves a tie in iteration `iter`.  On the
`ctx.Done()` case: the exit line, `wg.Done()`, return.  On the tick case: the
running line, and around again.  Gives the time of the return and the task,
or `none` when the fuel runs out first. -/
def runTimeout (ctx : Ctx) (duration : Nat) (id : Int) (ties : Nat → Bool) :
    Nat → Nat → CtxState → Task Int → Option (Nat × Task Int)
  | 0, _, _, _ => none
  | fuel + 1, iter, st, t =>
    match selectDoneOrAfter ctx st duration (ties iter) with
    | (Branch.done, time) =>
      some (time, { returned := true, trace := t.trace ++ [Event.exit id, Event.wgDone] })
    | (Branch.tick, time) =>
      runTimeout ctx duration id ties fuel (iter + 1) { st with now := time }
        { returned := false, trace := t.trace ++ [Event.running id] }

/-- `ctx` of the timeout example (line 145): `context.WithTimeout(
context.Background(), 5*time.Second)`, created at time zero. -/
def timeoutExampleCtx : Ctx := Ctx.withTimeout 0 5 Ctx.background

/-- `run(i)` of the worker pool (lines 38-42): straight-line code. -/
def runPool (i : Int) : Task Int :=
  { returned := true, trace := [Event.start i, Event.sleep 1, Event.wgDone] }

/-- A returned task of the cancel example ended on its exit line. -/
def ExitedOk (id : Int) (t : Task Int) : Prop :=
  t.returned = true → t.trace.getLast? = some (Event.exit id)

/-- The invariant of the stop-channel example with `n` tasks: the tasks are
all there, and a task has returned exactly when the send has completed, which
happens at most once. -/
def StopInv (n : Nat) (s : StopSys) : Prop :=
  s.tasks.length = n ∧
    (s.main = SenderPc.afterSend → s.returnedCount = 1) ∧
    (s.main ≠ SenderPc.afterSend → s.returnedCount = 0)


/-! # Theorems -/

/-! ## Example 1: producer / consumer -/

theorem pcExec_stuck (n : Nat) (s : PCState) (h : pcStep s = none) : pcExec n s = s := by
  cases n with
  | zero => rfl
  | succ n => simp [pcExec, h]

theorem pcExec_add (a b : Nat) (s : PCState) :
    pcExec (a + b) s = pcExec b (pcExec a s) := by
  induction a generalizing s with
  | zero => simp [pcExec]
  | succ a ih =>
    rw [Nat.add_right_comm]
    simp only [pcExec]
    cases h : pcStep s with
    | none => simp [pcExec_stuck b s h]
    | some s' => simp [ih]

theorem pcExec_seven : pcExec 7 pcInit = pcFinal := by decide

theorem pcExec_final (n : Nat) : pcExec (7 + n) pcInit = pcFinal := by
  rw [pcExec_add, pcExec_seven]
  exact pcExec_stuck n pcFinal (by decide)

/-- A decidable property of the states of the run holds at every step count as
soon as it holds at the first eight. -/
theorem pcExec_all (P : PCState → Prop) (h : ∀ n, n < 8 → P (pcExec n pcInit)) (n : Nat) :
    P (pcExec n pcInit) := by
  by_cases hn : n < 8
  · exact h n hn
  · obtain ⟨k, rfl⟩ : ∃ k, n = 7 + k := ⟨n - 7, by omega⟩
    rw [pcExec_final]
    exact pcExec_seven ▸ h 7 (by decide)

/-- C1: the producer/consumer program always ends, after seven steps, in the
state where the consumer has printed exactly `[3, 2, 1, 0]`, four sends and
four receives have happened, and the consumer has left the loop through the
`break`; nothing moves afterwards.  At every point of the run the printed
values are a prefix of `[3, 2, 1, 0]`, each printed value was received and
each received value was sent, the channel is open, and the consumer has left
the loop exactly when the value `0` has been received. -/
theorem C1_producer_consumer_sequence :
    (∀ n, pcExec (7 + n) pcInit =
      { i := 0, producer := ProducerPc.sleeping, consumer := ConsumerPc.exitedBreak,
        closed := false, printed := [3, 2, 1, 0], sends := 4, receives := 4 }) ∧
    pcStep (pcExec 7 pcInit) = none ∧
    (∀ n, (pcExec n pcInit).printed <+: [3, 2, 1, 0]) ∧
    (∀ n, (pcExec n pcInit).receives = (pcExec n pcInit).printed.length ∧
      (pcExec n pcInit).sends = (pcExec n pcInit).receives) ∧
    (∀ n, (pcExec n pcInit).closed = false ∧
      (pcExec n pcInit).consumer ≠ ConsumerPc.exitedClosed) ∧
    (∀ n, (pcExec n pcInit).consumer = ConsumerPc.exitedBreak ↔
      (pcExec n pcInit).printed.getLast? = some 0) ∧
    (∀ n, n < 7 → pcStep (pcExec n pcInit) ≠ none) := by
  refine ⟨pcExec_final, by decide, ?_, ?_, ?_, ?_, by decide⟩
  · exact pcExec_all (fun s => s.printed <+: [3, 2, 1, 0]) (by decide)
  · exact pcExec_all (fun s => s.receives = s.printed.length ∧ s.sends = s.receives)
      (by decide)
  · exact pcExec_all (fun s => s.closed = false ∧ s.consumer ≠ ConsumerPc.exitedClosed)
      (by decide)
  · exact pcExec_all
      (fun s => s.consumer = ConsumerPc.exitedBreak ↔ s.printed.getLast? = some 0)
      (by decide)

/-! ## Wait groups and coordinators -/

theorem joinStep_inv (acts0 : List CoordAct) (s : JoinState) (who : Actor)
    (h : JoinInv acts0 s) : JoinInv acts0 (joinStep s who) := by
  obtain ⟨acts, ⟨c⟩, live, arrived, panicked⟩ := s
  obtain ⟨hp, hle, hreg, hsuf, hbal, htot⟩ := h
  simp only at hp hle hreg hsuf hbal htot
  subst hp
  cases acts with
  | nil => exact ⟨rfl, hle, hreg, hsuf, hbal, htot⟩
  | cons act rest =>
    have hsuf' : rest <:+ acts0 := (List.suffix_cons act rest).trans hsuf
    cases who with
    | coord =>
      cases act with
      | add d =>
        simp only [registerBeforeSpawnFrom, Bool.and_eq_true, decide_eq_true_eq] at hreg
        simp only [addsIn, spawnsIn] at hbal htot
        have hnn : ¬ (c + d < 0) := by omega
        have e : c + d - (live.length : Int) = c - live.length + d := by omega
        simp only [JoinInv, joinStep, WaitGroup.Add, hnn, if_false, e]
        exact ⟨trivial, by omega, hreg.2, hsuf', by omega, htot⟩
      | spawn id =>
        simp only [registerBeforeSpawnFrom, Bool.and_eq_true, decide_eq_true_eq] at hreg
        simp only [addsIn, spawnsIn] at hbal htot
        have e : c - ((live.length + 1 : Nat) : Int) = c - live.length - 1 := by
          push_cast; omega
        simp only [JoinInv, joinStep, List.length_cons, e]
        exact ⟨trivial, by push_cast; omega, hreg.2, hsuf', by push_cast; omega, by omega⟩
      | wait =>
        by_cases hw : (WaitGroup.mk c).waitReturns = true
        · simp only [registerBeforeSpawnFrom] at hreg
          simp only [addsIn, spawnsIn] at hbal htot
          simp only [JoinInv, joinStep, hw, if_true]
          exact ⟨trivial, hle, hreg, hsuf', hbal, htot⟩
        · have hw' : (WaitGroup.mk c).waitReturns = false := by simpa using hw
          simp only [JoinInv, joinStep, hw', Bool.false_eq_true, if_false]
          exact ⟨trivial, hle, hreg, hsuf, hbal, htot⟩
      | println =>
        simp only [registerBeforeSpawnFrom] at hreg
        simp only [addsIn, spawnsIn] at hbal htot
        exact ⟨rfl, hle, hreg, hsuf', hbal, htot⟩
      | cancel =>
        simp only [registerBeforeSpawnFrom] at hreg
        simp only [addsIn, spawnsIn] at hbal htot
        exact ⟨rfl, hle, hreg, hsuf', hbal, htot⟩
    | task id =>
      by_cases hmem : id ∈ live
      · have hpos : 0 < live.length := List.length_pos_of_mem hmem
        have hnn : ¬ (c + -1 < 0) := by omega
        have hlen : (live.erase id).length = live.length - 1 :=
          List.length_erase_of_mem hmem
        have e : c + -1 - (((live.length - 1 : Nat)) : Int) = c - live.length := by omega
        simp only [JoinInv, joinStep, hmem, if_true, WaitGroup.Done, WaitGroup.Add, hnn,
          if_false, hlen, e, List.length_cons]
        exact ⟨trivial, by omega, hreg, hsuf, by omega, by omega⟩
      · simp only [JoinInv, joinStep, hmem, if_false]
        exact ⟨trivial, hle, hreg, hsuf, hbal, htot⟩

theorem joinRun_inv (acts0 : List CoordAct) (sched : List Actor) (s : JoinState)
    (h : JoinInv acts0 s) : JoinInv acts0 (joinRun sched s) := by
  induction sched generalizing s with
  | nil => exact h
  | cons who rest ih => exact ih _ (joinStep_inv acts0 s who h)

theorem joinInit_inv (acts : List CoordAct) (h : registerBeforeSpawn acts = true) :
    JoinInv acts (joinInit acts) := by
  refine ⟨rfl, by simp [joinInit, WaitGroup.zero], ?_, List.suffix_refl _, ?_, ?_⟩
  · simpa [joinInit, WaitGroup.zero, registerBeforeSpawn] using h
  · simp only [joinInit, WaitGroup.zero, List.length_nil]; push_cast; omega
  · simp [joinInit]

/-- A coordinator that registers before it spawns never makes the wait group
panic, under any schedule, and every live task stays counted. -/
theorem registerBeforeSpawn_safe (acts : List CoordAct) (h : registerBeforeSpawn acts = true)
    (sched : List Actor) :
    (joinRun sched (joinInit acts)).panicked = none ∧
      ((joinRun sched (joinInit acts)).live.length : Int) ≤
        (joinRun sched (joinInit acts)).wg.counter :=
  ⟨(joinRun_inv acts sched _ (joinInit_inv acts h)).1,
    (joinRun_inv acts sched _ (joinInit_inv acts h)).2.1⟩

theorem spawnsIn_pastJoin (acts : List CoordAct) (h : pastJoin acts = true) :
    spawnsIn acts = 0 := by
  induction acts with
  | nil => rfl
  | cons act rest ih =>
    cases act <;> simp_all [pastJoin, spawnsIn]

theorem joinStep_joined (s : JoinState) (who : Actor)
    (hle : (s.live.length : Int) ≤ s.wg.counter) (h : JoinedInv s) :
    JoinedInv (joinStep s who) := by
  obtain ⟨acts, ⟨c⟩, live, arrived, panicked⟩ := s
  obtain ⟨hw, hz⟩ := h
  simp only at hle hw hz
  cases panicked with
  | some e => exact ⟨hw, hz⟩
  | none =>
    cases acts with
    | nil => exact ⟨hw, hz⟩
    | cons act rest =>
      cases who with
      | coord =>
        cases act with
        | add d =>
          by_cases hnn : c + d < 0
          · simp only [JoinedInv, joinStep, WaitGroup.Add, hnn, if_true]
            exact ⟨hw, hz⟩
          · simp only [JoinedInv, joinStep, WaitGroup.Add, hnn, if_false]
            refine ⟨by simp_all [waitsLast], fun hq => ?_⟩
            simp_all only [waitsLast, pastJoin, List.all_eq_true, decide_eq_true_eq]
            simp at hw
            obtain ⟨⟨x, hx, h1, h2⟩, _⟩ := hw
            rcases hq x hx with h | h
            · exact absurd h h1
            · exact absurd h h2
        | spawn id =>
          simp only [JoinedInv, joinStep]
          refine ⟨by simp_all [waitsLast], fun hq => ?_⟩
          simp_all only [waitsLast, pastJoin, List.all_eq_true, decide_eq_true_eq]
          simp at hw
          obtain ⟨⟨x, hx, h1, h2⟩, _⟩ := hw
          rcases hq x hx with h | h
          · exact absurd h h1
          · exact absurd h h2
        | wait =>
          by_cases hr : (WaitGroup.mk c).waitReturns = true
          · simp only [JoinedInv, joinStep, hr, if_true]
            refine ⟨by simp_all [waitsLast], fun _ => ?_⟩
            simpa [WaitGroup.waitReturns] using hr
          · have hr' : (WaitGroup.mk c).waitReturns = false := by simpa using hr
            simp only [JoinedInv, joinStep, hr', Bool.false_eq_true, if_false]
            exact ⟨hw, hz⟩
        | println =>
          simp only [JoinedInv, joinStep]
          refine ⟨by simp_all [waitsLast], fun hq => hz ?_⟩
          simpa [pastJoin] using hq
        | cancel =>
          simp only [JoinedInv, joinStep]
          refine ⟨by simp_all [waitsLast], fun hq => hz ?_⟩
          simpa [pastJoin] using hq
      | task id =>
        by_cases hmem : id ∈ live
        · have hpos : 0 < live.length := List.length_pos_of_mem hmem
          by_cases hnn : c + -1 < 0
          · simp only [JoinedInv, joinStep, hmem, if_true, WaitGroup.Done, WaitGroup.Add, hnn]
            exact ⟨hw, hz⟩
          · simp only [JoinedInv, joinStep, hmem, if_true, WaitGroup.Done, WaitGroup.Add, hnn,
              if_false]
            refine ⟨hw, fun hq => ?_⟩
            have := hz hq
            omega
        · simp only [JoinedInv, joinStep, hmem, if_false]
          exact ⟨hw, hz⟩

theorem joinRun_joined (acts0 : List CoordAct) (sched : List Actor) (s : JoinState)
    (h : JoinInv acts0 s) (hj : JoinedInv s) : JoinedInv (joinRun sched s) := by
  induction sched generalizing s with
  | nil => exact hj
  | cons who rest ih =>
    exact ih _ (joinStep_inv acts0 s who h) (joinStep_joined s who h.2.1 hj)

theorem timeoutMain_pastJoin (acts : List CoordAct) (hs : acts <:+ timeoutMain)
    (hw : CoordAct.wait ∉ acts) : pastJoin acts = true := by
  have key : ∀ a ∈ timeoutMain.tails, CoordAct.wait ∉ a → pastJoin a = true := by decide
  exact key acts ((List.mem_tails _ _).2 hs) hw

theorem timeoutMain_inv (sched : List Actor) :
    JoinInv timeoutMain (joinRun sched (joinInit timeoutMain)) ∧
      JoinedInv (joinRun sched (joinInit timeoutMain)) :=
  ⟨joinRun_inv timeoutMain sched _ (joinInit_inv timeoutMain (by decide)),
    joinRun_joined timeoutMain sched _ (joinInit_inv timeoutMain (by decide))
      ⟨by decide, fun _ => rfl⟩⟩

/-- C3: on a `sync.WaitGroup`, three `Add(1)` from zero give count 3 and three
`Done()` then give count 0, where `Wait()` returns; `Wait()` returns exactly
at count 0, so never above it; a fourth `Done()` panics with the negative
counter instead of leaving the count at 0.  In the timeout example, under
every schedule of `main` and its tasks the wait group never panics and the
count stays between 0 and 3, and whenever `main` is past `wg.Wait()` the count
is 0, all three tasks have arrived and none is live; `main` does get past
`wg.Wait()` once the three tasks have arrived, and is still blocked there
after two arrivals. -/
theorem C3_join_barrier_three_arrivals :
    WaitGroup.zero.addOnes 3 = Except.ok { counter := 3 } ∧
    (WaitGroup.mk 3).arrivals 3 = Except.ok { counter := 0 } ∧
    (WaitGroup.mk 0).waitReturns = true ∧
    (∀ wg : WaitGroup, wg.waitReturns = true ↔ wg.counter = 0) ∧
    (WaitGroup.mk 3).arrivals 4 = Except.error WgPanic.negativeCounter ∧
    (WaitGroup.mk 0).Done = Except.error WgPanic.negativeCounter ∧
    (WaitGroup.mk 0).Done ≠ Except.ok { counter := 0 } ∧
    (∀ sched : List Actor,
      (joinRun sched (joinInit timeoutMain)).panicked = none ∧
      0 ≤ (joinRun sched (joinInit timeoutMain)).wg.counter ∧
      (joinRun sched (joinInit timeoutMain)).wg.counter ≤ 3 ∧
      (CoordAct.wait ∉ (joinRun sched (joinInit timeoutMain)).acts →
        (joinRun sched (joinInit timeoutMain)).wg.counter = 0 ∧
        (joinRun sched (joinInit timeoutMain)).arrived.length = 3 ∧
        (joinRun sched (joinInit timeoutMain)).live = [])) ∧
    joinRun [Actor.coord, Actor.coord, Actor.coord, Actor.coord, Actor.coord, Actor.coord,
        Actor.task 0, Actor.task 1, Actor.task 2, Actor.coord]
        (joinInit timeoutMain) =
      { acts := [CoordAct.cancel], wg := { counter := 0 }, live := [], arrived := [2, 1, 0],
        panicked := none } ∧
    joinRun [Actor.coord, Actor.coord, Actor.coord, Actor.coord, Actor.coord, Actor.coord,
        Actor.task 0, Actor.task 1, Actor.coord]
        (joinInit timeoutMain) =
      { acts := [CoordAct.wait, CoordAct.cancel], wg := { counter := 1 }, live := [2],
        arrived := [1, 0], panicked := none } := by
  refine ⟨by decide, by decide, by decide, ?_, by decide, by decide, by decide, ?_,
    by decide, by decide⟩
  · intro wg
    simp [WaitGroup.waitReturns]
  · intro sched
    obtain ⟨⟨hp, hle, _, hsuf, hbal, htot⟩, _, hz⟩ := timeoutMain_inv sched
    have hs3 : spawnsIn timeoutMain = 3 := by decide
    have ha3 : addsIn timeoutMain = 3 := by decide
    have hn : (0 : Int) ≤ addsIn (joinRun sched (joinInit timeoutMain)).acts := by
      have key : ∀ a ∈ timeoutMain.tails, (0 : Int) ≤ addsIn a := by decide
      exact key _ ((List.mem_tails _ _).2 hsuf)
    rw [hs3, ha3] at hbal
    rw [hs3] at htot
    refine ⟨hp, by omega, by omega, fun hw => ?_⟩
    have hq := timeoutMain_pastJoin _ hsuf hw
    have hc := hz hq
    have hl : (joinRun sched (joinInit timeoutMain)).live.length = 0 := by omega
    have hsp := spawnsIn_pastJoin _ hq
    exact ⟨hc, by omega, List.length_eq_zero.1 hl⟩

/-- C4: the timeout `main` registers every task before it spawns it, and so
its wait group never panics under any schedule, as for every coordinator that
registers before it spawns; the worker-pool `main` spawns
both tasks before its single `wg.Add(2)`, so it does not register before it
spawns, and a task that reaches `wg.Done()` before `main` reaches `wg.Add`
makes the counter negative (panic), although the schedule in which `main`
runs first ends without one. -/
theorem C4_pool_main_spawns_before_register :
    timeoutMain =
      [CoordAct.add 1, CoordAct.spawn 0, CoordAct.add 1, CoordAct.spawn 1,
        CoordAct.add 1, CoordAct.spawn 2, CoordAct.wait, CoordAct.cancel] ∧
    registerBeforeSpawn timeoutMain = true ∧
    (∀ sched : List Actor, (joinRun sched (joinInit timeoutMain)).panicked = none) ∧
    (∀ (acts : List CoordAct) (sched : List Actor), registerBeforeSpawn acts = true →
      (joinRun sched (joinInit acts)).panicked = none ∧
      ((joinRun sched (joinInit acts)).live.length : Int) ≤
        (joinRun sched (joinInit acts)).wg.counter) ∧
    poolMain 2 =
      [CoordAct.spawn 0, CoordAct.spawn 1, CoordAct.add 2, CoordAct.wait,
        CoordAct.println] ∧
    registerBeforeSpawn (poolMain 2) = false ∧
    (joinRun [Actor.coord, Actor.task 0] (joinInit (poolMain 2))).panicked =
      some WgPanic.negativeCounter ∧
    joinRun [Actor.coord, Actor.coord, Actor.coord, Actor.task 0, Actor.task 1, Actor.coord,
        Actor.coord] (joinInit (poolMain 2)) =
      { acts := [], wg := { counter := 0 }, live := [], arrived := [1, 0],
        panicked := none } := by
  refine ⟨by decide, by decide, fun sched => (timeoutMain_inv sched).1.1,
    fun acts sched h => registerBeforeSpawn_safe acts h sched, by decide, by decide,
    by decide, by decide⟩

/-! ## Contexts -/

theorem pollValue_trace (P : Event (Option String) → Prop) (ctx : Ctx) (st : CtxState)
    (t : Task (Option String)) (hr : P (Event.running (ctx.Value key)))
    (hs : P (Event.sleep 2)) (he : P (Event.exit (ctx.Value key)))
    (h : ∀ e ∈ t.trace, P e) : ∀ e ∈ (t.pollValue ctx st).trace, P e := by
  intro e
  unfold Task.pollValue Task.pollCtx
  split
  · exact h e
  · split
    · intro hm
      rcases List.mem_append.1 hm with hm | hm
      · exact h e hm
      · simp only [List.mem_singleton] at hm
        exact hm ▸ he
    · intro hm
      rcases List.mem_append.1 hm with hm | hm
      · exact h e hm
      · simp only [List.mem_cons, List.mem_singleton, List.not_mem_nil, or_false] at hm
        rcases hm with hm | hm
        · exact hm ▸ hr
        · exact hm ▸ hs

theorem foldl_pollValue_trace (P : Event (Option String) → Prop) (ctx : Ctx)
    (hr : P (Event.running (ctx.Value key)))
    (hs : P (Event.sleep 2)) (he : P (Event.exit (ctx.Value key)))
    (sts : List CtxState) (t : Task (Option String)) (h : ∀ e ∈ t.trace, P e) :
    ∀ e ∈ (sts.foldl (fun t st => t.pollValue ctx st) t).trace, P e := by
  induction sts generalizing t with
  | nil => exact h
  | cons st rest ih => exact ih _ (pollValue_trace P ctx st t hr hs he h)

/-- C5: in the value example, `valuectx.Value("name")` is `"【监控1】"` and
`ctx.Value("name")` is absent; whatever the task polls, every line it prints
carries `"【监控1】"`; a value context answers for its own key, whatever its
parent holds for it, and passes any other key to its parent, and the
cancellation contexts pass every key to their parent, so the nearest binding
wins: a child with `"name" = "child"` under a parent with `"name" = "parent"`
resolves `"name"` to `"child"`, and a key bound only on the parent resolves to
the parent's value from the child. -/
theorem C5_value_lookup_nearest_binding :
    valuectx.Value key = some "【监控1】" ∧
    valueExampleCtx.Value key = none ∧
    (∀ sts : List CtxState, ∀ e ∈ (runValueTask sts).trace,
      e = Event.running (some "【监控1】") ∨ e = Event.sleep 2 ∨
        e = Event.exit (some "【监控1】")) ∧
    (runValueTask [CtxState.init, CtxState.init.apply (CtxOp.advance 2),
        (CtxState.init.apply (CtxOp.advance 4)).apply (CtxOp.cancel 0)]).trace =
      [Event.running (some "【监控1】"), Event.sleep 2, Event.running (some "【监控1】"),
        Event.sleep 2, Event.exit (some "【监控1】")] ∧
    (∀ (p : Ctx) (k v : String), (Ctx.withValue p k v).Value k = some v) ∧
    (∀ (p : Ctx) (k v k' : String), k ≠ k' → (Ctx.withValue p k v).Value k' = p.Value k') ∧
    (∀ (p : Ctx) (id : Nat) (k : String), (Ctx.withCancel id p).Value k = p.Value k) ∧
    (∀ (p : Ctx) (id dl : Nat) (k : String), (Ctx.withTimeout id dl p).Value k = p.Value k) ∧
    (∀ k : String, Ctx.background.Value k = none) ∧
    (∀ g : Ctx,
      (Ctx.withValue (Ctx.withValue g "name" "parent") "name" "child").Value "name" =
        some "child") ∧
    (∀ g : Ctx,
      (Ctx.withValue (Ctx.withValue g "name" "parent") "other" "child").Value "name" =
        some "parent") := by
  refine ⟨by decide, by decide, ?_, by decide, ?_, ?_, fun _ _ _ => rfl, fun _ _ _ _ => rfl,
    fun _ => rfl, ?_, ?_⟩
  · intro sts
    exact foldl_pollValue_trace _ valuectx (Or.inl (by decide)) (Or.inr (Or.inl rfl))
      (Or.inr (Or.inr (by decide))) sts Task.fresh (by simp [Task.fresh])
  · intro p k v
    simp [Ctx.Value]
  · intro p k v k' hk
    simp [Ctx.Value, hk]
  · intro g
    simp [Ctx.Value]
  · intro g
    simp [Ctx.Value]

theorem isDone_apply (c : Ctx) (st : CtxState) (op : CtxOp) (h : c.isDone st = true) :
    c.isDone (st.apply op) = true := by
  induction c with
  | background => simp [Ctx.isDone] at h
  | withCancel id p ih =>
    simp only [Ctx.isDone, Bool.or_eq_true, decide_eq_true_eq] at h ⊢
    rcases h with h | h
    · left
      cases op <;> simp [CtxState.apply, h]
    · exact Or.inr (ih h)
  | withTimeout id dl p ih =>
    simp only [Ctx.isDone, Bool.or_eq_true, decide_eq_true_eq] at h ⊢
    rcases h with (h | h) | h
    · left; left
      cases op <;> simp [CtxState.apply, h]
    · left; right
      cases op <;> simp only [CtxState.apply] <;> omega
    · exact Or.inr (ih h)
  | withValue p k v ih =>
    simp only [Ctx.isDone] at h ⊢
    exact ih h

theorem isDone_applyAll (c : Ctx) (st : CtxState) (ops : List CtxOp)
    (h : c.isDone st = true) : c.isDone (st.applyAll ops) = true := by
  induction ops generalizing st with
  | nil => exact h
  | cons op rest ih => exact ih _ (isDone_apply c st op h)

theorem isDone_of_isWithin (p c : Ctx) (st : CtxState) (hw : Ctx.isWithin p c = true)
    (h : p.isDone st = true) : c.isDone st = true := by
  induction c with
  | background =>
    simp only [Ctx.isWithin, decide_eq_true_eq] at hw
    exact hw ▸ h
  | withCancel id c ih =>
    simp only [Ctx.isWithin, Bool.or_eq_true, decide_eq_true_eq] at hw
    rcases hw with hw | hw
    · exact hw ▸ h
    · simp only [Ctx.isDone, Bool.or_eq_true]
      exact Or.inr (ih hw)
  | withTimeout id dl c ih =>
    simp only [Ctx.isWithin, Bool.or_eq_true, decide_eq_true_eq] at hw
    rcases hw with hw | hw
    · exact hw ▸ h
    · simp only [Ctx.isDone, Bool.or_eq_true]
      exact Or.inr (ih hw)
  | withValue c k v ih =>
    simp only [Ctx.isWithin, Bool.or_eq_true, decide_eq_true_eq] at hw
    rcases hw with hw | hw
    · exact hw ▸ h
    · simp only [Ctx.isDone]
      exact ih hw

theorem isDone_cancel_other (p : Ctx) (id : Nat) (st : CtxState) (h : id ∉ p.cancelIds) :
    p.isDone (st.apply (CtxOp.cancel id)) = p.isDone st := by
  induction p with
  | background => rfl
  | withCancel i p ih =>
    simp only [Ctx.cancelIds, List.mem_cons, not_or] at h
    have hne : i ≠ id := fun e => h.1 e.symm
    simp only [Ctx.isDone, ih h.2]
    simp [CtxState.apply, hne]
  | withTimeout i dl p ih =>
    simp only [Ctx.cancelIds, List.mem_cons, not_or] at h
    have hne : i ≠ id := fun e => h.1 e.symm
    simp only [Ctx.isDone, ih h.2]
    simp [CtxState.apply, hne]
  | withValue p k v ih =>
    simp only [Ctx.cancelIds] at h
    simp only [Ctx.isDone, ih h]

/-- C6: in the value example neither context is done at the start; once
`cancel()` of the parent `ctx` has been called, after any further cancel calls
and passing of time both `ctx` and the child `valuectx` are done, and a
running task bound to `valuectx` takes the exit branch at its next poll.  In
any tree a done context makes every context at or below it done, no operation
makes a done context not done, cancelling a node leaves every context whose
chain to the root does not contain that node as it was (so not its parent,
unless the parent is done for its own reasons), and a cancelled child is done
while its parent is not. -/
theorem C6_cancellation_downward_irreversible :
    valueExampleCtx.isDone CtxState.init = false ∧
    valuectx.isDone CtxState.init = false ∧
    (∀ (st : CtxState) (ops : List CtxOp),
      valuectx.isDone ((st.apply (CtxOp.cancel 0)).applyAll ops) = true ∧
      valueExampleCtx.isDone ((st.apply (CtxOp.cancel 0)).applyAll ops) = true) ∧
    (∀ (st : CtxState) (ops : List CtxOp) (t : Task (Option String)), t.returned = false →
      t.pollValue valuectx ((st.apply (CtxOp.cancel 0)).applyAll ops) =
        { returned := true, trace := t.trace ++ [Event.exit (some "【监控1】")] }) ∧
    (∀ (p c : Ctx) (st : CtxState), Ctx.isWithin p c = true → p.isDone st = true →
      c.isDone st = true) ∧
    (∀ (c : Ctx) (st : CtxState) (ops : List CtxOp), c.isDone st = true →
      c.isDone (st.applyAll ops) = true) ∧
    (∀ (p : Ctx) (id : Nat) (st : CtxState), id ∉ p.cancelIds →
      p.isDone (st.apply (CtxOp.cancel id)) = p.isDone st) ∧
    (∀ (p : Ctx) (id : Nat) (st : CtxState),
      (Ctx.withCancel id p).isDone (st.apply (CtxOp.cancel id)) = true) ∧
    (Ctx.withCancel 1 valueExampleCtx).isDone (CtxState.init.apply (CtxOp.cancel 1)) = true ∧
    valueExampleCtx.isDone (CtxState.init.apply (CtxOp.cancel 1)) = false := by
  have hdone : ∀ (st : CtxState) (ops : List CtxOp),
      valueExampleCtx.isDone ((st.apply (CtxOp.cancel 0)).applyAll ops) = true := by
    intro st ops
    apply isDone_applyAll
    simp [valueExampleCtx, Ctx.isDone, CtxState.apply]
  refine ⟨by decide, by decide, fun st ops => ⟨hdone st ops, hdone st ops⟩, ?_,
    isDone_of_isWithin, isDone_applyAll, isDone_cancel_other, ?_, by decide, by decide⟩
  · intro st ops t ht
    have hv : valuectx.isDone ((st.apply (CtxOp.cancel 0)).applyAll ops) = true := hdone st ops
    have hk : valuectx.Value key = some "【监控1】" := by decide
    simp [Task.pollValue, Task.pollCtx, ht, hv, hk]
  · intro p id st
    simp [Ctx.isDone, CtxState.apply]

theorem cancelStep_task (s : CancelSys) (m : CancelMove) (i : Nat) (id : Int) (t : Task Int)
    (h : s.tasks[i]? = some (id, t)) :
    (s.step m).tasks[i]? =
      some (id, if m = CancelMove.poll i then t.pollCtx cancelExampleCtx s.st id else t) := by
  cases m with
  | cancel => simp [CancelSys.step, h]
  | poll j =>
    by_cases hj : j = i
    · subst hj
      obtain ⟨hlt, _⟩ := List.getElem?_eq_some.1 h
      simp [CancelSys.step, h, List.getElem?_set_self hlt]
    · simp only [CancelSys.step]
      cases hs : s.tasks[j]? with
      | none => simp [h, hj]
      | some p => simp [List.getElem?_set_ne hj, h, hj]

theorem cancelStep_done (s : CancelSys) (m : CancelMove)
    (h : cancelExampleCtx.isDone s.st = true) :
    cancelExampleCtx.isDone (s.step m).st = true := by
  cases m with
  | cancel => exact isDone_apply _ _ _ h
  | poll j =>
    simp only [CancelSys.step]
    cases s.tasks[j]? <;> exact h

theorem cancelStep_poll_st (s : CancelSys) (i : Nat) :
    (s.step (CancelMove.poll i)).st = s.st := by
  simp only [CancelSys.step]
  cases s.tasks[i]? <;> rfl

theorem pollCtx_exitedOk (ctx : Ctx) (st : CtxState) (id : Int) (t : Task Int)
    (h : ExitedOk id t) : ExitedOk id (t.pollCtx ctx st id) := by
  unfold Task.pollCtx
  split
  · exact h
  · split
    · intro _
      simp
    · intro hr
      simp at hr

theorem cancelRun_task (moves : List CancelMove) (s : CancelSys) (i : Nat) (id : Int)
    (t : Task Int) (h : s.tasks[i]? = some (id, t)) (hok : ExitedOk id t) :
    ∃ t', (CancelSys.run moves s).tasks[i]? = some (id, t') ∧ ExitedOk id t' := by
  induction moves generalizing s t with
  | nil => exact ⟨t, h, hok⟩
  | cons m rest ih =>
    refine ih (s.step m) _ (cancelStep_task s m i id t h) ?_
    split
    · exact pollCtx_exitedOk _ _ _ _ hok
    · exact hok

theorem cancelRun_done (moves : List CancelMove) (s : CancelSys)
    (h : cancelExampleCtx.isDone s.st = true) :
    cancelExampleCtx.isDone (CancelSys.run moves s).st = true := by
  induction moves generalizing s with
  | nil => exact h
  | cons m rest ih => exact ih _ (cancelStep_done s m h)

theorem cancelRun_returned (post : List CancelMove) (s : CancelSys) (i : Nat) (id : Int)
    (t : Task Int) (hd : cancelExampleCtx.isDone s.st = true)
    (h : s.tasks[i]? = some (id, t)) (hok : ExitedOk id t)
    (hp : CancelMove.poll i ∈ post ∨ t.returned = true) :
    ∃ t', (CancelSys.run post s).tasks[i]? = some (id, t') ∧ t'.returned = true ∧
      t'.trace.getLast? = some (Event.exit id) := by
  induction post generalizing s t with
  | nil =>
    rcases hp with hp | hp
    · simp at hp
    · exact ⟨t, h, hp, hok hp⟩
  | cons m rest ih =>
    refine ih (s.step m) _ (cancelStep_done s m hd) (cancelStep_task s m i id t h) ?_ ?_
    · split
      · exact pollCtx_exitedOk _ _ _ _ hok
      · exact hok
    · by_cases hm : m = CancelMove.poll i
      · right
        simp only [hm, if_true, Task.pollCtx]
        split
        · assumption
        · simp [hd]
      · simp only [hm, if_false]
        rcases hp with hp | hp
        · left
          rcases List.mem_cons.1 hp with e | e
          · exact absurd e.symm hm
          · exact e
        · exact Or.inr hp

theorem cancelStep_length (s : CancelSys) (m : CancelMove) :
    (s.step m).tasks.length = s.tasks.length := by
  cases m with
  | cancel => rfl
  | poll j =>
    simp only [CancelSys.step]
    cases s.tasks[j]? <;> simp

theorem cancelRun_length (moves : List CancelMove) (s : CancelSys) :
    (CancelSys.run moves s).tasks.length = s.tasks.length := by
  induction moves generalizing s with
  | nil => rfl
  | cons m rest ih => exact (ih (s.step m)).trans (cancelStep_length s m)

theorem cancelRun_after_cancel (ids : List Int) (pre post : List CancelMove) (i : Nat)
    (id : Int) (hid : ids[i]? = some id) (hp : CancelMove.poll i ∈ post) :
    ∃ t, (CancelSys.run (pre ++ CancelMove.cancel :: post) (CancelSys.spawned ids)).tasks[i]?
        = some (id, t) ∧ t.returned = true ∧ t.trace.getLast? = some (Event.exit id) := by
  have h0 : (CancelSys.spawned ids).tasks[i]? = some (id, Task.fresh) := by
    simp [CancelSys.spawned, List.getElem?_map, hid]
  obtain ⟨t1, h1, hok1⟩ := cancelRun_task pre (CancelSys.spawned ids) i id Task.fresh h0
    (by intro h; simp [Task.fresh] at h)
  have h2 := cancelStep_task (CancelSys.run pre (CancelSys.spawned ids)) CancelMove.cancel
    i id t1 h1
  simp only [reduceCtorEq, if_false] at h2
  have hd : cancelExampleCtx.isDone
      ((CancelSys.run pre (CancelSys.spawned ids)).step CancelMove.cancel).st = true := by
    simp [CancelSys.step, cancelExampleCtx, Ctx.isDone, CtxState.apply]
  have := cancelRun_returned post _ i id t1 hd h2 hok1 (Or.inl hp)
  simpa [CancelSys.run, List.foldl_append] using this

/-- C7: in the cancel example, after the one `cancel()` both `run(ctx, 1)` and
`run(ctx, 2)` take the exit branch at their next poll, in either order, and
return.  A poll never changes the shared context state, so the done signal is
not used up by a task that sees it.  For any number of tasks bound to the same
`ctx` and any moves before and after the `cancel()`: the context is done from
then on, every task that polls after it has returned with its exit line last,
and when every task polls after it all of them have returned. -/
theorem C7_done_signal_broadcast :
    CancelSys.run [CancelMove.poll 0, CancelMove.poll 1, CancelMove.poll 0, CancelMove.poll 1,
        CancelMove.poll 0, CancelMove.poll 1, CancelMove.cancel, CancelMove.poll 0,
        CancelMove.poll 1] cancelExample =
      { st := { cancelled := [0], now := 0 },
        tasks := [(1, { returned := true, trace := [Event.running 1, Event.sleep 2,
            Event.running 1, Event.sleep 2, Event.running 1, Event.sleep 2, Event.exit 1] }),
          (2, { returned := true, trace := [Event.running 2, Event.sleep 2,
            Event.running 2, Event.sleep 2, Event.running 2, Event.sleep 2, Event.exit 2] })] } ∧
    CancelSys.run [CancelMove.poll 0, CancelMove.poll 1, CancelMove.poll 0, CancelMove.poll 1,
        CancelMove.poll 0, CancelMove.poll 1, CancelMove.cancel, CancelMove.poll 1,
        CancelMove.poll 0] cancelExample =
      CancelSys.run [CancelMove.poll 0, CancelMove.poll 1, CancelMove.poll 0, CancelMove.poll 1,
        CancelMove.poll 0, CancelMove.poll 1, CancelMove.cancel, CancelMove.poll 0,
        CancelMove.poll 1] cancelExample ∧
    (∀ (s : CancelSys) (i : Nat), (s.step (CancelMove.poll i)).st = s.st) ∧
    (∀ (ids : List Int) (pre post : List CancelMove),
      cancelExampleCtx.isDone
        (CancelSys.run (pre ++ CancelMove.cancel :: post) (CancelSys.spawned ids)).st = true) ∧
    (∀ (ids : List Int) (pre post : List CancelMove) (i : Nat) (id : Int),
      ids[i]? = some id → CancelMove.poll i ∈ post →
      ∃ t, (CancelSys.run (pre ++ CancelMove.cancel :: post) (CancelSys.spawned ids)).tasks[i]?
          = some (id, t) ∧ t.returned = true ∧ t.trace.getLast? = some (Event.exit id)) ∧
    (∀ (ids : List Int) (pre post : List CancelMove),
      (∀ i, i < ids.length → CancelMove.poll i ∈ post) →
      (CancelSys.run (pre ++ CancelMove.cancel :: post) (CancelSys.spawned ids)).tasks.length
          = ids.length ∧
      ∀ p ∈ (CancelSys.run (pre ++ CancelMove.cancel :: post) (CancelSys.spawned ids)).tasks,
        p.2.returned = true) := by
  refine ⟨by decide, by decide, cancelStep_poll_st, ?_, cancelRun_after_cancel, ?_⟩
  · intro ids pre post
    have hd : cancelExampleCtx.isDone
        ((CancelSys.run pre (CancelSys.spawned ids)).step CancelMove.cancel).st = true := by
      simp [CancelSys.step, cancelExampleCtx, Ctx.isDone, CtxState.apply]
    have := cancelRun_done post _ hd
    simpa [CancelSys.run, List.foldl_append] using this
  · intro ids pre post hall
    have hlen : (CancelSys.run (pre ++ CancelMove.cancel :: post)
        (CancelSys.spawned ids)).tasks.length = ids.length := by
      rw [cancelRun_length]
      simp [CancelSys.spawned]
    refine ⟨hlen, fun p hp => ?_⟩
    obtain ⟨i, hi, hget⟩ := List.getElem_of_mem hp
    have hi' : i < ids.length := hlen ▸ hi
    obtain ⟨t, ht, hr, _⟩ := cancelRun_after_cancel ids pre post i ids[i]
      (List.getElem?_eq_getElem hi') (hall i hi')
    rw [List.getElem?_eq_getElem hi] at ht
    have : p = (ids[i], t) := by
      rw [← hget]
      exact Option.some.inj ht
    rw [this]
    exact hr

/-! ## The stop channel -/

theorem stopStep_inv (u n : Nat) (s : StopSys) (m : StopMove) (h : StopInv n s) :
    StopInv n (StopSys.step u s m) := by
  obtain ⟨main, tasks⟩ := s
  obtain ⟨hlen, ha, hb⟩ := h
  simp only [StopSys.returnedCount] at hlen ha hb
  cases m with
  | offer =>
    cases main
    · exact ⟨hlen, fun h => by simp [StopSys.step] at h, fun _ => hb (by simp)⟩
    · exact ⟨hlen, ha, hb⟩
    · exact ⟨hlen, ha, hb⟩
  | poll i =>
    simp only [StopSys.step]
    cases hi : tasks[i]? with
    | none => exact ⟨hlen, ha, hb⟩
    | some t =>
      obtain ⟨hlt, hget⟩ := List.getElem?_eq_some.1 hi
      by_cases hr : t.returned = true
      · simp only [hr, if_true]
        exact ⟨hlen, ha, hb⟩
      · have hr' : t.returned = false := by simpa using hr
        simp only [hr', Bool.false_eq_true, if_false]
        cases main
        · refine ⟨by simpa using hlen, fun h => by simp at h, fun _ => ?_⟩
          simp only [StopSys.returnedCount]
          rw [List.countP_set _ _ _ _ hlt, hget]
          simp [hr', hb (by simp)]
        · refine ⟨by simpa using hlen, fun _ => ?_, fun h => by simp at h⟩
          simp only [StopSys.returnedCount]
          rw [List.countP_set _ _ _ _ hlt, hget]
          simp [hr', hb (by simp)]
        · refine ⟨by simpa using hlen, fun _ => ?_, fun h => by simp at h⟩
          simp only [StopSys.returnedCount]
          rw [List.countP_set _ _ _ _ hlt, hget]
          simp [hr', ha rfl]

theorem stopRun_inv (u n : Nat) (moves : List StopMove) (s : StopSys) (h : StopInv n s) :
    StopInv n (StopSys.run u moves s) := by
  induction moves generalizing s with
  | nil => exact h
  | cons m rest ih => exact ih _ (stopStep_inv u n s m h)

theorem stopSpawned_inv (n : Nat) : StopInv n (StopSys.spawned n) := by
  refine ⟨by simp [StopSys.spawned], fun h => by simp [StopSys.spawned] at h, fun _ => ?_⟩
  simp [StopSys.returnedCount, StopSys.spawned, List.countP_replicate, Task.fresh]

theorem stop_counts (s : StopSys) : s.returnedCount + s.runningCount = s.tasks.length := by
  unfold StopSys.returnedCount StopSys.runningCount
  induction s.tasks with
  | nil => rfl
  | cons t ts ih =>
    cases hr : t.returned <;> simp [List.countP_cons, hr] <;> omega

theorem stopStep_returned (u : Nat) (s : StopSys) (m : StopMove) (i : Nat) (t : Task Unit)
    (h : s.tasks[i]? = some t) (hr : t.returned = true) :
    (StopSys.step u s m).tasks[i]? = some t := by
  cases m with
  | offer =>
    simp only [StopSys.step]
    cases s.main <;> exact h
  | poll j =>
    simp only [StopSys.step]
    cases hj : s.tasks[j]? with
    | none => exact h
    | some t' =>
      by_cases hr' : t'.returned = true
      · simp only [hr', if_true]
        exact h
      · have hne : j ≠ i := by
          intro e
          subst e
          rw [h] at hj
          exact hr' (Option.some.inj hj ▸ hr)
        have hf : t'.returned = false := by simpa using hr'
        simp only [hf, Bool.false_eq_true, if_false]
        cases s.main <;> simp [List.getElem?_set_ne hne, h]

theorem stopRun_returned (u : Nat) (moves : List StopMove) (s : StopSys) (i : Nat)
    (t : Task Unit) (h : s.tasks[i]? = some t) (hr : t.returned = true) :
    (StopSys.run u moves s).tasks[i]? = some t := by
  induction moves generalizing s with
  | nil => exact h
  | cons m rest ih => exact ih _ (stopStep_returned u s m i t h hr)

theorem stopRun_no_poll (u : Nat) (moves : List StopMove) (s : StopSys)
    (hm : s.main ≠ SenderPc.afterSend) (h : ∀ i, StopMove.poll i ∉ moves) :
    (StopSys.run u moves s).main ≠ SenderPc.afterSend := by
  induction moves generalizing s with
  | nil => exact hm
  | cons m rest ih =>
    refine ih _ ?_ (fun i hi => h i (List.mem_cons_of_mem _ hi))
    cases m with
    | offer =>
      simp only [StopSys.step]
      cases hs : s.main <;> simp_all
    | poll i => exact absurd (List.mem_cons_self _ _) (h i)

theorem stopStep_before_offer (u : Nat) (s : StopSys) (m : StopMove) (i : Nat)
    (T : List (Event Unit)) (hm : s.main = SenderPc.beforeSend)
    (h : s.tasks[i]? = some { returned := false, trace := T }) (hno : m ≠ StopMove.offer) :
    (StopSys.step u s m).main = SenderPc.beforeSend ∧
      (StopSys.step u s m).tasks[i]? =
        some { returned := false,
               trace := T ++ if m = StopMove.poll i then [Event.running (), Event.sleep u]
                 else [] } := by
  cases m with
  | offer => exact absurd rfl hno
  | poll j =>
    simp only [StopSys.step]
    by_cases hj : j = i
    · subst hj
      obtain ⟨hlt, _⟩ := List.getElem?_eq_some.1 h
      simp [h, hm, List.getElem?_set_self hlt]
    · have hne : StopMove.poll j ≠ StopMove.poll i := fun e => hj (StopMove.poll.inj e)
      cases hs : s.tasks[j]? with
      | none => simp [hm, h, hne]
      | some t' =>
        by_cases hr : t'.returned = true
        · simp [hr, hm, h, hne]
        · have hf : t'.returned = false := by simpa using hr
          simp [hf, hm, h, hne, List.getElem?_set_ne hj]

theorem stopRun_before_offer (u : Nat) (pre : List StopMove) (s : StopSys) (i : Nat)
    (T : List (Event Unit)) (hm : s.main = SenderPc.beforeSend)
    (h : s.tasks[i]? = some { returned := false, trace := T })
    (hno : StopMove.offer ∉ pre) :
    (StopSys.run u pre s).main = SenderPc.beforeSend ∧
      (StopSys.run u pre s).tasks[i]? =
        some { returned := false,
               trace := T ++ (List.replicate (pre.count (StopMove.poll i))
                 [Event.running (), Event.sleep u]).flatten } := by
  induction pre generalizing s T with
  | nil => simpa using ⟨hm, h⟩
  | cons m rest ih =>
    have hne : m ≠ StopMove.offer := fun e => hno (e ▸ List.mem_cons_self _ _)
    obtain ⟨hm', h'⟩ := stopStep_before_offer u s m i T hm h hne
    have := ih (StopSys.step u s m) _ hm' h' (fun hmem => hno (List.mem_cons_of_mem _ hmem))
    refine ⟨this.1, ?_⟩
    have hrun : StopSys.run u (m :: rest) s = StopSys.run u rest (StopSys.step u s m) := rfl
    rw [hrun, this.2]
    by_cases hmi : m = StopMove.poll i
    · subst hmi
      simp [List.replicate_succ, List.append_assoc]
    · have hbeq : (m == StopMove.poll i) = false := by simpa using hmi
      simp [hmi, List.count_cons, hbeq]

theorem stopRun_first_poll_after_offer (u n i : Nat) (pre rest : List StopMove) (hi : i < n)
    (hno : StopMove.offer ∉ pre) :
    (StopSys.run u (pre ++ StopMove.offer :: StopMove.poll i :: rest)
        (StopSys.spawned n)).tasks[i]? =
      some { returned := true,
             trace := (List.replicate (pre.count (StopMove.poll i))
               [Event.running (), Event.sleep u]).flatten ++ [Event.exit ()] } := by
  have h0 : (StopSys.spawned n).tasks[i]? = some { returned := false, trace := [] } := by
    simp [StopSys.spawned, List.getElem?_replicate, hi, Task.fresh]
  obtain ⟨hm1, h1⟩ := stopRun_before_offer u pre (StopSys.spawned n) i [] rfl h0 hno
  simp only [List.nil_append] at h1
  obtain ⟨hlt, _⟩ := List.getElem?_eq_some.1 h1
  have h3 : (StopSys.step u (StopSys.step u (StopSys.run u pre (StopSys.spawned n))
      StopMove.offer) (StopMove.poll i)).tasks[i]? =
      some { returned := true,
             trace := (List.replicate (pre.count (StopMove.poll i))
               [Event.running (), Event.sleep u]).flatten ++ [Event.exit ()] } := by
    simp [StopSys.step, hm1, h1, List.getElem?_set_self hlt]
  have hkeep := stopRun_returned u rest _ i _ h3 rfl
  have hrun : StopSys.run u (pre ++ StopMove.offer :: StopMove.poll i :: rest)
      (StopSys.spawned n) = StopSys.run u rest (StopSys.step u (StopSys.step u
        (StopSys.run u pre (StopSys.spawned n)) StopMove.offer) (StopMove.poll i)) := by
    simp [StopSys.run, List.foldl_append]
  rw [hrun]
  exact hkeep

theorem stop_others_running (s : StopSys) (i j : Nat) (a b : Task Unit)
    (hc : s.returnedCount = 1) (hi : s.tasks[i]? = some a) (ha : a.returned = true)
    (hj : s.tasks[j]? = some b) (hne : j ≠ i) : b.returned = false := by
  by_contra hb
  have hb' : b.returned = true := by simpa using hb
  obtain ⟨hlt, hget⟩ := List.getElem?_eq_some.1 hi
  have hset := List.countP_set (fun t : Task Unit => t.returned) s.tasks i
    { returned := false, trace := [] } hlt
  rw [hget] at hset
  unfold StopSys.returnedCount at hc
  simp only [ha, if_true, hc, Bool.false_eq_true, if_false] at hset
  have hmem : b ∈ s.tasks.set i { returned := false, trace := [] } := by
    apply List.getElem?_mem (n := j)
    rw [List.getElem?_set_ne (Ne.symm hne)]
    exact hj
  have hpos : 0 < (s.tasks.set i { returned := false, trace := [] }).countP
      (fun t : Task Unit => t.returned) := List.countP_pos_iff.2 ⟨b, hmem, hb'⟩
  omega

/-- C10: in the stop-channel example with any number `n` of tasks on the same
unbuffered channel and the one send of `main`, under any moves: at most one
task has returned, the others are still in their loop, and the send has
completed exactly when one task has returned; without a poll the send never
completes (the coordinator stays blocked at it).  When task `i` is the first
to poll after `main` has reached its send, task `i` returns with the end
line, the send completes, and whatever moves follow the other `n - 1` tasks
stay in their loop; this holds after any polls of any tasks before the send is
reached, task `i` then having printed one in-progress line for each of its
earlier polls, and every other task is still in its loop.  In the program's
own run with one task (polls at 0, 2 and 4 seconds, the send reached at 5, the
next poll at 6) `main` is blocked at the send until that poll, at which the
task returns after three in-progress lines. -/
theorem C10_stop_signal_consumed_by_one :
    (∀ (u n : Nat) (moves : List StopMove),
      (StopSys.run u moves (StopSys.spawned n)).tasks.length = n ∧
      (StopSys.run u moves (StopSys.spawned n)).returnedCount ≤ 1 ∧
      (StopSys.run u moves (StopSys.spawned n)).returnedCount +
        (StopSys.run u moves (StopSys.spawned n)).runningCount = n ∧
      ((StopSys.run u moves (StopSys.spawned n)).main = SenderPc.afterSend ↔
        (StopSys.run u moves (StopSys.spawned n)).returnedCount = 1)) ∧
    (∀ (u n : Nat) (moves : List StopMove), (∀ i, StopMove.poll i ∉ moves) →
      (StopSys.run u moves (StopSys.spawned n)).main ≠ SenderPc.afterSend) ∧
    (∀ (u n i : Nat) (rest : List StopMove), i < n →
      (StopSys.run u (StopMove.offer :: StopMove.poll i :: rest) (StopSys.spawned n)).main =
        SenderPc.afterSend ∧
      (StopSys.run u (StopMove.offer :: StopMove.poll i :: rest)
        (StopSys.spawned n)).tasks[i]? = some { returned := true, trace := [Event.exit ()] } ∧
      (StopSys.run u (StopMove.offer :: StopMove.poll i :: rest)
        (StopSys.spawned n)).returnedCount = 1 ∧
      (StopSys.run u (StopMove.offer :: StopMove.poll i :: rest)
        (StopSys.spawned n)).runningCount = n - 1) ∧
    StopSys.run 2 [StopMove.poll 0, StopMove.poll 1, StopMove.offer, StopMove.poll 1,
        StopMove.poll 0, StopMove.poll 1] (StopSys.spawned 2) =
      { main := SenderPc.afterSend,
        tasks := [{ returned := false, trace := [Event.running (), Event.sleep 2,
            Event.running (), Event.sleep 2] },
          { returned := true, trace := [Event.running (), Event.sleep 2, Event.exit ()] }] } ∧
    (∀ (u n i : Nat) (pre rest : List StopMove), i < n → StopMove.offer ∉ pre →
      (StopSys.run u (pre ++ StopMove.offer :: StopMove.poll i :: rest)
        (StopSys.spawned n)).main = SenderPc.afterSend ∧
      (StopSys.run u (pre ++ StopMove.offer :: StopMove.poll i :: rest)
        (StopSys.spawned n)).tasks[i]? =
          some { returned := true,
                 trace := (List.replicate (pre.count (StopMove.poll i))
                   [Event.running (), Event.sleep u]).flatten ++ [Event.exit ()] } ∧
      (StopSys.run u (pre ++ StopMove.offer :: StopMove.poll i :: rest)
        (StopSys.spawned n)).returnedCount = 1 ∧
      (StopSys.run u (pre ++ StopMove.offer :: StopMove.poll i :: rest)
        (StopSys.spawned n)).runningCount = n - 1 ∧
      (∀ (j : Nat) (b : Task Unit), j ≠ i →
        (StopSys.run u (pre ++ StopMove.offer :: StopMove.poll i :: rest)
          (StopSys.spawned n)).tasks[j]? = some b → b.returned = false)) ∧
    StopSys.run 2 [StopMove.poll 0, StopMove.poll 0, StopMove.poll 0, StopMove.offer]
        (StopSys.spawned 1) =
      { main := SenderPc.atSend,
        tasks := [{ returned := false, trace := [Event.running (), Event.sleep 2,
            Event.running (), Event.sleep 2, Event.running (), Event.sleep 2] }] } ∧
    StopSys.run 2 [StopMove.poll 0, StopMove.poll 0, StopMove.poll 0, StopMove.offer,
        StopMove.poll 0] (StopSys.spawned 1) =
      { main := SenderPc.afterSend,
        tasks := [{ returned := true, trace := [Event.running (), Event.sleep 2,
            Event.running (), Event.sleep 2, Event.running (), Event.sleep 2,
            Event.exit ()] }] } := by
  have hcount : ∀ (u n : Nat) (moves : List StopMove),
      (StopSys.run u moves (StopSys.spawned n)).tasks.length = n ∧
      (StopSys.run u moves (StopSys.spawned n)).returnedCount ≤ 1 ∧
      (StopSys.run u moves (StopSys.spawned n)).returnedCount +
        (StopSys.run u moves (StopSys.spawned n)).runningCount = n ∧
      ((StopSys.run u moves (StopSys.spawned n)).main = SenderPc.afterSend ↔
        (StopSys.run u moves (StopSys.spawned n)).returnedCount = 1) := by
    intro u n moves
    obtain ⟨hlen, ha, hb⟩ := stopRun_inv u n moves _ (stopSpawned_inv n)
    have hc := stop_counts (StopSys.run u moves (StopSys.spawned n))
    refine ⟨hlen, ?_, by omega, ha, fun h1 => ?_⟩
    · by_cases hm : (StopSys.run u moves (StopSys.spawned n)).main = SenderPc.afterSend
      · exact (ha hm).le
      · exact (hb hm).le.trans (Nat.zero_le 1)
    · by_contra hm
      have := hb hm
      omega
  have hprefix : ∀ (u n i : Nat) (pre rest : List StopMove), i < n → StopMove.offer ∉ pre →
      (StopSys.run u (pre ++ StopMove.offer :: StopMove.poll i :: rest)
        (StopSys.spawned n)).main = SenderPc.afterSend ∧
      (StopSys.run u (pre ++ StopMove.offer :: StopMove.poll i :: rest)
        (StopSys.spawned n)).tasks[i]? =
          some { returned := true,
                 trace := (List.replicate (pre.count (StopMove.poll i))
                   [Event.running (), Event.sleep u]).flatten ++ [Event.exit ()] } ∧
      (StopSys.run u (pre ++ StopMove.offer :: StopMove.poll i :: rest)
        (StopSys.spawned n)).returnedCount = 1 ∧
      (StopSys.run u (pre ++ StopMove.offer :: StopMove.poll i :: rest)
        (StopSys.spawned n)).runningCount = n - 1 ∧
      (∀ (j : Nat) (b : Task Unit), j ≠ i →
        (StopSys.run u (pre ++ StopMove.offer :: StopMove.poll i :: rest)
          (StopSys.spawned n)).tasks[j]? = some b → b.returned = false) := by
    intro u n i pre rest hi hno
    have hkeep := stopRun_first_poll_after_offer u n i pre rest hi hno
    obtain ⟨hlen, hle, hsum, hiff⟩ :=
      hcount u n (pre ++ StopMove.offer :: StopMove.poll i :: rest)
    have hpos : 0 < (StopSys.run u (pre ++ StopMove.offer :: StopMove.poll i :: rest)
        (StopSys.spawned n)).returnedCount := by
      unfold StopSys.returnedCount
      rw [List.countP_pos_iff]
      exact ⟨_, List.getElem?_mem hkeep, rfl⟩
    have hone : (StopSys.run u (pre ++ StopMove.offer :: StopMove.poll i :: rest)
        (StopSys.spawned n)).returnedCount = 1 := by omega
    exact ⟨hiff.2 hone, hkeep, hone, by omega,
      fun j b hne hj => stop_others_running _ i j _ b hone hkeep rfl hj hne⟩
  refine ⟨hcount, ?_, ?_, by decide, hprefix, by decide, by decide⟩
  · intro u n moves h
    exact stopRun_no_poll u moves _ (by simp [StopSys.spawned]) h
  · intro u n i rest hi
    obtain ⟨h1, h2, h3, h4, _⟩ := hprefix u n i [] rest hi (by simp)
    exact ⟨h1, by simpa using h2, h3, h4⟩

/-! ## The timeout example and the stop channel in time -/

theorem runTimeout_example (ties : Nat → Bool) (id : Int) (extra : Nat) :
    runTimeout timeoutExampleCtx 1 id ties (extra + 6) 0 CtxState.init Task.fresh =
      some (5, { returned := true,
                 trace := List.replicate (if ties 4 = true then 5 else 4) (Event.running id) ++
                   [Event.exit id, Event.wgDone] }) := by
  cases h : ties 4 <;>
    simp [runTimeout, selectDoneOrAfter, Ctx.doneAt?, timeoutExampleCtx, CtxState.init,
      Task.fresh, h, List.replicate]

/-- C2: in the timeout example (deadline at 5 seconds, tick of 1 second, task
started at time 0), for every task id and every way the `select` resolves a
tie, the task returns at time 5 (given fuel for six iterations or more) having
printed its running line `k` times, then its exit line, then called
`wg.Done()`, and nothing else; `k` is 5 when the tie at time 5 goes to the tick
and 4 when it goes to `ctx.Done()`, so it is between 4 and 6, and no running
line comes after the exit line. -/
theorem C2_timeout_task_running_lines (ties : Nat → Bool) (id : Int) (extra : Nat) :
    runTimeout timeoutExampleCtx 1 id ties (extra + 6) 0 CtxState.init Task.fresh =
      some (5, { returned := true,
                 trace := List.replicate (if ties 4 = true then 5 else 4) (Event.running id) ++
                   [Event.exit id, Event.wgDone] }) ∧
    4 ≤ (if ties 4 = true then 5 else 4) ∧ (if ties 4 = true then 5 else 4) ≤ 6 ∧
    (List.replicate (if ties 4 = true then 5 else 4) (Event.running id) ++
      [Event.exit id, Event.wgDone]).count (Event.running id) =
        (if ties 4 = true then 5 else 4) ∧
    Event.running id ∉ [Event.exit id, Event.wgDone] := by
  refine ⟨runTimeout_example ties id extra, ?_, ?_, ?_, ?_⟩
  · split <;> omega
  · split <;> omega
  · cases ties 4 <;> simp [List.replicate]
  · simp

theorem runTimeout_shape (ctx : Ctx) (duration : Nat) (id : Int) (ties : Nat → Bool)
    (fuel iter : Nat) (st : CtxState) (t : Task Int) (r : Nat × Task Int)
    (h : runTimeout ctx duration id ties fuel iter st t = some r) :
    ∃ k, r.2 = { returned := true,
                 trace := t.trace ++ List.replicate k (Event.running id) ++
                   [Event.exit id, Event.wgDone] } := by
  induction fuel generalizing iter st t with
  | zero => simp [runTimeout] at h
  | succ fuel ih =>
    simp only [runTimeout] at h
    rcases hsel : selectDoneOrAfter ctx st duration (ties iter) with ⟨b, time⟩
    rw [hsel] at h
    cases b with
    | done =>
      simp only [Option.some.injEq] at h
      exact ⟨0, by simp [← h]⟩
    | tick =>
      obtain ⟨k, hk⟩ := ih _ _ _ h
      refine ⟨k + 1, ?_⟩
      rw [hk]
      simp [List.replicate_succ, List.append_assoc]

theorem doneAt?_advance (ctx : Ctx) (st : CtxState) (now' : Nat) (h : st.now ≤ now') :
    ctx.doneAt? { st with now := now' } = (ctx.doneAt? st).map (max now') := by
  induction ctx with
  | background => rfl
  | withCancel id p ih =>
    simp only [Ctx.doneAt?]
    split
    · simp only [Option.map_some', Option.some.injEq]; omega
    · exact ih
  | withTimeout id dl p ih =>
    simp only [Ctx.doneAt?]
    split
    · simp only [Option.map_some', Option.some.injEq]; omega
    · rw [ih]
      cases p.doneAt? st with
      | none => simp only [Option.map_none', Option.map_some', Option.some.injEq]; omega
      | some d => simp only [Option.map_some', Option.some.injEq]; omega
  | withValue p k v ih => exact ih

theorem runTimeout_total (ctx : Ctx) (duration : Nat) (id : Int) (ties : Nat → Bool)
    (hd : 0 < duration) (n : Nat) :
    ∀ (iter : Nat) (st : CtxState) (t : Task Int) (d extra : Nat),
      ctx.doneAt? st = some d → d - st.now ≤ n * duration →
      ∃ r, runTimeout ctx duration id ties (n + 1 + extra) iter st t = some r := by
  induction n with
  | zero =>
    intro iter st t d extra hdone hgap
    have e : 0 + 1 + extra = extra + 1 := by omega
    have hlt : d < st.now + duration := by omega
    rw [e]
    simp [runTimeout, selectDoneOrAfter, hdone, hlt]
  | succ n ih =>
    intro iter st t d extra hdone hgap
    have e : n + 1 + 1 + extra = (n + 1 + extra) + 1 := by omega
    have hmul : (n + 1) * duration = n * duration + duration := Nat.succ_mul _ _
    rw [e]
    simp only [runTimeout, selectDoneOrAfter, hdone]
    by_cases h1 : d < st.now + duration
    · simp [h1]
    · have hadv := doneAt?_advance ctx st (st.now + duration) (Nat.le_add_right _ _)
      rw [hdone] at hadv
      simp only [Option.map_some'] at hadv
      have hmax : max (st.now + duration) d = d := by omega
      rw [hmax] at hadv
      by_cases h2 : st.now + duration < d
      · simp only [h1, h2, if_true, if_false]
        exact ih _ _ _ d extra hadv (by simp only; omega)
      · have heq : d = st.now + duration := by omega
        simp only [h1, h2, if_false]
        cases ties iter with
        | false => simp
        | true =>
          simp only [if_true]
          rw [heq] at hadv ⊢
          exact ih _ _ _ (st.now + duration) extra hadv (by simp only; omega)

/-- C8: every execution of `run(ctx, duration, id, wg)` of the timeout example
returns, and its trace holds `wg.Done()` exactly once, as its last event,
right after the exit line.  Whatever the context, the tick and the fuel, an
execution that returns has done only running lines (the tick branch) and then
the exit line and `wg.Done()` (the `ctx.Done()` branch), so the tick branch
never calls `wg.Done()`; and for a positive tick and a context that becomes
done at some time `d`, the execution does return once the fuel covers the
ticks up to `d`.  The worker-pool `run(i)` is straight-line code that ends
after one `wg.Done()`. -/
theorem C8_exit_reported_exactly_once :
    (∀ (ties : Nat → Bool) (id : Int) (extra : Nat),
      ∃ r, runTimeout timeoutExampleCtx 1 id ties (extra + 6) 0 CtxState.init Task.fresh
          = some r ∧
        r.2.returned = true ∧ r.2.trace.count Event.wgDone = 1 ∧
        r.2.trace.getLast? = some Event.wgDone ∧
        r.2.trace.dropLast.getLast? = some (Event.exit id)) ∧
    (∀ (ctx : Ctx) (duration : Nat) (id : Int) (ties : Nat → Bool) (fuel iter : Nat)
      (st : CtxState) (t : Task Int) (r : Nat × Task Int),
      runTimeout ctx duration id ties fuel iter st t = some r →
      ∃ k, r.2 = { returned := true,
                   trace := t.trace ++ List.replicate k (Event.running id) ++
                     [Event.exit id, Event.wgDone] }) ∧
    (∀ (ctx : Ctx) (duration : Nat) (id : Int) (ties : Nat → Bool) (n iter : Nat)
      (st : CtxState) (t : Task Int) (d extra : Nat),
      0 < duration → ctx.doneAt? st = some d → d - st.now ≤ n * duration →
      ∃ r, runTimeout ctx duration id ties (n + 1 + extra) iter st t = some r) ∧
    (∀ i : Int, (runPool i).returned = true ∧ (runPool i).trace.count Event.wgDone = 1 ∧
      (runPool i).trace.getLast? = some Event.wgDone ∧
      (runPool i).trace = [Event.start i, Event.sleep 1, Event.wgDone]) := by
  refine ⟨?_, runTimeout_shape, ?_, ?_⟩
  · intro ties id extra
    refine ⟨_, runTimeout_example ties id extra, rfl, ?_, ?_, ?_⟩
    · cases ties 4 <;> simp [List.replicate]
    · simp
    · cases ties 4 <;> simp [List.replicate]
  · intro ctx duration id ties n iter st t d extra hd hdone hgap
    exact runTimeout_total ctx duration id ties hd n iter st t d extra hdone hgap
  · intro i
    simp [runPool]

theorem stopTimedRun_loop (u t : Nat) (tie : Bool) (m : Nat) :
    ∀ (now : Nat) (T : List (Event Unit)) (extra : Nat),
      (∀ j, j < m → ¬ (t < now + j * u ∨ (t = now + j * u ∧ tie = true))) →
      (t < now + m * u ∨ (t = now + m * u ∧ tie = true)) →
      stopTimedRun u t tie (m + 1 + extra) now
          { main := SenderPc.beforeSend, tasks := [{ returned := false, trace := T }] } =
        some (now + m * u,
          { main := SenderPc.afterSend,
            tasks := [{ returned := true,
                        trace := T ++ (List.replicate m
                          [Event.running (), Event.sleep u]).flatten ++ [Event.exit ()] }] }) := by
  induction m with
  | zero =>
    intro now T extra _ hready
    simp only [Nat.zero_mul, Nat.add_zero] at hready
    have e : 0 + 1 + extra = extra + 1 := by omega
    rw [e]
    simp [stopTimedRun, hready, StopSys.step]
  | succ m ih =>
    intro now T extra hnot hready
    have h0 : ¬ (t < now ∨ (t = now ∧ tie = true)) := by
      have := hnot 0 (Nat.succ_pos m)
      simpa using this
    have e : m + 1 + 1 + extra = (m + 1 + extra) + 1 := by omega
    rw [e]
    simp only [stopTimedRun, h0, if_false, StopSys.step]
    simp only [List.getElem?_cons_zero, Bool.false_eq_true, if_false, List.set_cons_zero]
    have hnot' : ∀ j, j < m → ¬ (t < now + u + j * u ∨ (t = now + u + j * u ∧ tie = true)) := by
      intro j hj
      have := hnot (j + 1) (Nat.succ_lt_succ hj)
      have e2 : now + (j + 1) * u = now + u + j * u := by rw [Nat.succ_mul]; omega
      rwa [e2] at this
    have e3 : now + (m + 1) * u = now + u + m * u := by rw [Nat.succ_mul]; omega
    rw [e3] at hready
    rw [ih (now + u) _ extra hnot' hready, e3]
    simp [List.replicate_succ, List.append_assoc]

theorem stopTimedRun_general (u t : Nat) (tie : Bool) (extra : Nat) (hu : 0 < u) :
    ∃ k : Nat,
      stopTimedRun u t tie (t / u + 2 + extra) 0 (StopSys.spawned 1) =
        some (k * u,
          { main := SenderPc.afterSend,
            tasks := [{ returned := true,
                        trace := (List.replicate k [Event.running (), Event.sleep u]).flatten ++
                          [Event.exit ()] }] }) ∧
      t ≤ k * u ∧ k * u - t ≤ u ∧
      (∀ j, t < j * u → k ≤ j) ∧
      ((tie = true ∨ ¬ u ∣ t) → (∀ j, t ≤ j * u → k ≤ j) ∧ k * u - t < u) := by
  have hdm : u * (t / u) + t % u = t := Nat.div_add_mod t u
  have hr : t % u < u := Nat.mod_lt t hu
  have hqu : (t / u) * u + t % u = t := by rw [Nat.mul_comm]; exact hdm
  have hsucc : (t / u + 1) * u = (t / u) * u + u := Nat.succ_mul _ _
  have hle : ∀ j, j ≤ t / u → j * u ≤ (t / u) * u := fun j hj => Nat.mul_le_mul_right u hj
  have hge : ∀ j, t / u + 1 ≤ j → (t / u) * u + u ≤ j * u := fun j hj =>
    hsucc ▸ Nat.mul_le_mul_right u hj
  have hspawn : StopSys.spawned 1 =
      { main := SenderPc.beforeSend, tasks := [{ returned := false, trace := [] }] } := rfl
  by_cases hc : tie = true ∧ t % u = 0
  · obtain ⟨htie, hz⟩ := hc
    refine ⟨t / u, ?_, by omega, by omega, ?_, fun _ => ⟨?_, by omega⟩⟩
    · have hfuel : t / u + 2 + extra = t / u + 1 + (1 + extra) := by omega
      have := stopTimedRun_loop u t tie (t / u) 0 [] (1 + extra)
        (fun j hj => by
          have := hle (j + 1) (by omega)
          have e : (j + 1) * u = j * u + u := Nat.succ_mul _ _
          omega)
        (Or.inr ⟨by omega, htie⟩)
      rw [hfuel, hspawn, this]
      simp
    · intro j hj
      by_contra hlt
      have := hle j (by omega)
      omega
    · intro j hj
      by_contra hlt
      have := hle (j + 1) (by omega)
      have e : (j + 1) * u = j * u + u := Nat.succ_mul _ _
      omega
  · have hmod : ∀ j, t = j * u → t % u = 0 := fun j hj => by
      rw [hj]; exact Nat.mul_mod_left j u
    refine ⟨t / u + 1, ?_, by omega, by omega, ?_, fun hor => ⟨?_, ?_⟩⟩
    · have hfuel : t / u + 2 + extra = t / u + 1 + 1 + extra := by omega
      have := stopTimedRun_loop u t tie (t / u + 1) 0 [] extra
        (fun j hj => by
          have h1 := hle j (by omega)
          rintro (h | ⟨h, ht⟩)
          · omega
          · exact hc ⟨ht, hmod j (by omega)⟩)
        (Or.inl (by omega))
      rw [hfuel, hspawn, this]
      simp
    · intro j hj
      by_contra hlt
      have := hle j (by omega)
      omega
    · intro j hj
      by_contra hlt
      have h1 := hle j (by omega)
      have hz : t % u = 0 := by omega
      rcases hor with h | h
      · exact hc ⟨h, hz⟩
      · exact h (Nat.dvd_of_mod_eq_zero hz)
    · have hz : t % u ≠ 0 := by
        intro hz
        rcases hor with h | h
        · exact hc ⟨h, hz⟩
        · exact h (Nat.dvd_of_mod_eq_zero hz)
      omega

/-- C9: in the stop-channel example (`main` reaches its send at 5 seconds,
the task polls every 2 seconds from 0), however a tie would resolve, the task
prints the in-progress line exactly 3 times (at 0, 2 and 4), receives at its
poll at 6 seconds, prints the end line once and returns; the delay is 1 second,
within the 2 of a work unit.  For a send reached at any time `t` and any work
unit `u > 0`, the task returns at a poll time `k * u` with `t ≤ k * u`, at
most `u` after `t`, after `k` in-progress lines; no poll time strictly after
`t` is earlier; and when `t` is not a poll time, or a tie goes to the sender,
`k * u` is the first poll time at or after `t` and the delay is strictly less
than `u`. -/
theorem C9_polling_exit_delay :
    (∀ (tie : Bool) (extra : Nat),
      stopTimedRun 2 5 tie (extra + 4) 0 (StopSys.spawned 1) =
        some (6,
          { main := SenderPc.afterSend,
            tasks := [{ returned := true,
                        trace := [Event.running (), Event.sleep 2, Event.running (),
                          Event.sleep 2, Event.running (), Event.sleep 2, Event.exit ()] }] })) ∧
    (6 - 5 ≤ 2) ∧
    (∀ (u t : Nat) (tie : Bool) (extra : Nat), 0 < u →
      ∃ k : Nat,
        stopTimedRun u t tie (t / u + 2 + extra) 0 (StopSys.spawned 1) =
          some (k * u,
            { main := SenderPc.afterSend,
              tasks := [{ returned := true,
                          trace := (List.replicate k [Event.running (), Event.sleep u]).flatten ++
                            [Event.exit ()] }] }) ∧
        t ≤ k * u ∧ k * u - t ≤ u ∧
        (∀ j, t < j * u → k ≤ j) ∧
        ((tie = true ∨ ¬ u ∣ t) → (∀ j, t ≤ j * u → k ≤ j) ∧ k * u - t < u)) := by
  refine ⟨?_, by decide, stopTimedRun_general⟩
  intro tie extra
  cases tie <;> simp [stopTimedRun, StopSys.step, StopSys.spawned, Task.fresh]

/-- C9 at a tie: with `u = 2` and the send reached at the poll time `t = 4`,
the tie going to the task, the conclusion of the general part holds. -/
theorem C9_polling_exit_delay_witness :
    0 < 2 ∧
    ∃ k : Nat,
      stopTimedRun 2 4 false (4 / 2 + 2 + 0) 0 (StopSys.spawned 1) =
        some (k * 2,
          { main := SenderPc.afterSend,
            tasks := [{ returned := true,
                        trace := (List.replicate k [Event.running (), Event.sleep 2]).flatten ++
                          [Event.exit ()] }] }) ∧
      4 ≤ k * 2 ∧ k * 2 - 4 ≤ 2 ∧
      (∀ j, 4 < j * 2 → k ≤ j) ∧
      ((false = true ∨ ¬ 2 ∣ 4) → (∀ j, 4 ≤ j * 2 → k ≤ j) ∧ k * 2 - 4 < 2) :=
  ⟨by decide, C9_polling_exit_delay.2.2 2 4 false 0 (by decide)⟩

/-! ## The general statements at concrete inputs -/

/-- C3 at the schedule in which `main` registers and spawns the three tasks,
the tasks arrive in order and `main` passes `wg.Wait()`. -/
theorem C3_join_barrier_three_arrivals_witness :
    CoordAct.wait ∉ (joinRun [Actor.coord, Actor.coord, Actor.coord, Actor.coord, Actor.coord,
        Actor.coord, Actor.task 0, Actor.task 1, Actor.task 2, Actor.coord]
        (joinInit timeoutMain)).acts ∧
    (joinRun [Actor.coord, Actor.coord, Actor.coord, Actor.coord, Actor.coord,
        Actor.coord, Actor.task 0, Actor.task 1, Actor.task 2, Actor.coord]
        (joinInit timeoutMain)).wg.counter = 0 ∧
    (joinRun [Actor.coord, Actor.coord, Actor.coord, Actor.coord, Actor.coord,
        Actor.coord, Actor.task 0, Actor.task 1, Actor.task 2, Actor.coord]
        (joinInit timeoutMain)).arrived.length = 3 ∧
    (joinRun [Actor.coord, Actor.coord, Actor.coord, Actor.coord, Actor.coord,
        Actor.coord, Actor.task 0, Actor.task 1, Actor.task 2, Actor.coord]
        (joinInit timeoutMain)).live = [] :=
  ⟨by decide, (C3_join_barrier_three_arrivals.2.2.2.2.2.2.2.1 _).2.2.2 (by decide)⟩

/-- C5 at the value example: a key other than `"name"` passes through
`valuectx` to its parent. -/
theorem C5_value_lookup_nearest_binding_witness :
    "name" ≠ "other" ∧
    (Ctx.withValue valueExampleCtx "name" "【监控1】").Value "other" =
      valueExampleCtx.Value "other" :=
  ⟨by decide,
    C5_value_lookup_nearest_binding.2.2.2.2.2.1 valueExampleCtx "name" "【监控1】" "other"
      (by decide)⟩

/-- C6 at the value example: `valuectx` is below `ctx`, and once `ctx` is done
so is `valuectx`. -/
theorem C6_cancellation_downward_irreversible_witness :
    Ctx.isWithin valueExampleCtx valuectx = true ∧
    valueExampleCtx.isDone (CtxState.init.apply (CtxOp.cancel 0)) = true ∧
    valuectx.isDone (CtxState.init.apply (CtxOp.cancel 0)) = true :=
  ⟨by decide, by decide,
    C6_cancellation_downward_irreversible.2.2.2.2.1 valueExampleCtx valuectx
      (CtxState.init.apply (CtxOp.cancel 0)) (by decide) (by decide)⟩

/-- C7 at the cancel example: the second task polls once after the cancel. -/
theorem C7_done_signal_broadcast_witness :
    [(1 : Int), 2][1]? = some 2 ∧ CancelMove.poll 1 ∈ [CancelMove.poll 1] ∧
    ∃ t, (CancelSys.run ([CancelMove.poll 0] ++ CancelMove.cancel :: [CancelMove.poll 1])
        (CancelSys.spawned [1, 2])).tasks[1]? = some (2, t) ∧ t.returned = true ∧
      t.trace.getLast? = some (Event.exit 2) :=
  ⟨by decide, by decide,
    C7_done_signal_broadcast.2.2.2.2.1 [1, 2] [CancelMove.poll 0] [CancelMove.poll 1] 1 2
      (by decide) (by decide)⟩

/-- C8 at the timeout example: five ticks cover the deadline, so the run
returns. -/
theorem C8_exit_reported_exactly_once_witness :
    0 < 1 ∧ timeoutExampleCtx.doneAt? CtxState.init = some 5 ∧
    5 - CtxState.init.now ≤ 5 * 1 ∧
    ∃ r, runTimeout timeoutExampleCtx 1 2 (fun _ => true) (5 + 1 + 0) 0 CtxState.init
      Task.fresh = some r :=
  ⟨by decide, by decide, by decide,
    C8_exit_reported_exactly_once.2.2.1 timeoutExampleCtx 1 2 (fun _ => true) 5 0
      CtxState.init Task.fresh 5 0 (by decide) (by decide) (by decide)⟩

/-- C10 with three tasks: all three poll, the second twice, before the send is
reached; the second is then the first to poll, and the others poll afterwards. -/
theorem C10_stop_signal_consumed_by_one_witness :
    1 < 3 ∧
    StopMove.offer ∉ [StopMove.poll 0, StopMove.poll 1, StopMove.poll 2, StopMove.poll 1] ∧
    (StopSys.run 2 ([StopMove.poll 0, StopMove.poll 1, StopMove.poll 2, StopMove.poll 1] ++
      StopMove.offer :: StopMove.poll 1 :: [StopMove.poll 0, StopMove.poll 2])
      (StopSys.spawned 3)).main = SenderPc.afterSend ∧
    (StopSys.run 2 ([StopMove.poll 0, StopMove.poll 1, StopMove.poll 2, StopMove.poll 1] ++
      StopMove.offer :: StopMove.poll 1 :: [StopMove.poll 0, StopMove.poll 2])
      (StopSys.spawned 3)).tasks[1]? =
        some { returned := true,
               trace := (List.replicate
                 ([StopMove.poll 0, StopMove.poll 1, StopMove.poll 2, StopMove.poll 1].count
                   (StopMove.poll 1)) [Event.running (), Event.sleep 2]).flatten ++
                 [Event.exit ()] } ∧
    (StopSys.run 2 ([StopMove.poll 0, StopMove.poll 1, StopMove.poll 2, StopMove.poll 1] ++
      StopMove.offer :: StopMove.poll 1 :: [StopMove.poll 0, StopMove.poll 2])
      (StopSys.spawned 3)).returnedCount = 1 ∧
    (StopSys.run 2 ([StopMove.poll 0, StopMove.poll 1, StopMove.poll 2, StopMove.poll 1] ++
      StopMove.offer :: StopMove.poll 1 :: [StopMove.poll 0, StopMove.poll 2])
      (StopSys.spawned 3)).runningCount = 3 - 1 ∧
    (∀ (j : Nat) (b : Task Unit), j ≠ 1 →
      (StopSys.run 2 ([StopMove.poll 0, StopMove.poll 1, StopMove.poll 2, StopMove.poll 1] ++
        StopMove.offer :: StopMove.poll 1 :: [StopMove.poll 0, StopMove.poll 2])
        (StopSys.spawned 3)).tasks[j]? = some b → b.returned = false) :=
  ⟨by decide, by decide,
    C10_stop_signal_consumed_by_one.2.2.2.2.1 2 3 1
      [StopMove.poll 0, StopMove.poll 1, StopMove.poll 2, StopMove.poll 1]
      [StopMove.poll 0, StopMove.poll 2] (by decide) (by decide)⟩

end GoGoroutine
